import Mathlib

/-!
# Verification of the vocal-chess voice-command subsystem

A shallow embedding of the voice command parser (`normalizeSquare`,
`parseVoiceCommand`) and of the listening-session controller
(`VoiceController`) of the vocal-chess repository, together with proofs
of the specification's claims about them.

Strings are modelled as `List Char`.  The JavaScript regular expressions
of the source are embedded as executable character-list matchers that
reproduce the engine's leftmost-match, ordered-alternation and greedy
quantifier semantics for the concrete patterns appearing in the source.
-/

namespace VocalChess

/-- Whitespace characters recognized by the embedding of `\s`
(the ASCII whitespace class; transcripts contain no exotic spaces). -/
def isWsCh (c : Char) : Bool :=
  c == ' ' || c == '\t' || c == '\n' || c == '\r' || c == '\x0b' || c == '\x0c'

/-- Lowercase file letters `[a-h]`. -/
def isFileLower (c : Char) : Bool :=
  c == 'a' || c == 'b' || c == 'c' || c == 'd' ||
  c == 'e' || c == 'f' || c == 'g' || c == 'h'

/-- The case-insensitive file-letter class `[a-hA-H]`. -/
def isFileCh (c : Char) : Bool :=
  isFileLower c ||
  (c == 'A' || c == 'B' || c == 'C' || c == 'D' ||
   c == 'E' || c == 'F' || c == 'G' || c == 'H')

/-- The rank-digit class `[1-8]`. -/
def isRankCh (c : Char) : Bool :=
  c == '1' || c == '2' || c == '3' || c == '4' ||
  c == '5' || c == '6' || c == '7' || c == '8'

/-- The promotion-letter class `[qrbn]`. -/
def isPromoCh (c : Char) : Bool :=
  c == 'q' || c == 'r' || c == 'b' || c == 'n'

/-- Decimal digits `[0-9]`. -/
def isDigitCh (c : Char) : Bool :=
  c == '0' || c == '1' || c == '2' || c == '3' || c == '4' ||
  c == '5' || c == '6' || c == '7' || c == '8' || c == '9'

/-- JavaScript `toLowerCase` restricted to ASCII (the only characters the
parser's patterns can match). -/
def toLowerCh (c : Char) : Char :=
  if c = 'A' then 'a' else if c = 'B' then 'b' else if c = 'C' then 'c'
  else if c = 'D' then 'd' else if c = 'E' then 'e' else if c = 'F' then 'f'
  else if c = 'G' then 'g' else if c = 'H' then 'h' else if c = 'I' then 'i'
  else if c = 'J' then 'j' else if c = 'K' then 'k' else if c = 'L' then 'l'
  else if c = 'M' then 'm' else if c = 'N' then 'n' else if c = 'O' then 'o'
  else if c = 'P' then 'p' else if c = 'Q' then 'q' else if c = 'R' then 'r'
  else if c = 'S' then 's' else if c = 'T' then 't' else if c = 'U' then 'u'
  else if c = 'V' then 'v' else if c = 'W' then 'w' else if c = 'X' then 'x'
  else if c = 'Y' then 'y' else if c = 'Z' then 'z' else c

/-- `String.prototype.toLowerCase`. -/
def lowerL (l : List Char) : List Char := l.map toLowerCh

/-- `replace(/\s+/g, "")`: delete every whitespace character. -/
def stripWs (l : List Char) : List Char := l.filter (fun c => !(isWsCh c))

/-- `String.prototype.trim`: drop whitespace at both ends. -/
def trimL (l : List Char) : List Char :=
  ((l.dropWhile isWsCh).reverse.dropWhile isWsCh).reverse

/-- A run of `n` space characters. -/
def spaces (n : Nat) : List Char := List.replicate n ' '

/-- `replace(/to|two|too/g, "")`: global scan; at each position the
alternatives `to`, `two`, `too` are tried in that order ( so `too` loses
to its prefix `to` and is never used), the match is deleted and scanning
resumes after it without rescanning. -/
def replaceConn : List Char → List Char
  | 't' :: 'o' :: rest => replaceConn rest
  | 't' :: 'w' :: 'o' :: rest => replaceConn rest
  | c :: rest => c :: replaceConn rest
  | [] => []

/-- The anchored pattern `^([a-h][1-8])([a-h][1-8])([qrbn])?$` applied to
the cleaned text; on success returns the two captured squares. -/
def uciMatch : List Char → Option (List Char × List Char)
  | [f1, r1, f2, r2] =>
    if isFileLower f1 && isRankCh r1 && isFileLower f2 && isRankCh r2 then
      some ([f1, r1], [f2, r2])
    else none
  | [f1, r1, f2, r2, p] =>
    if isFileLower f1 && isRankCh r1 && isFileLower f2 && isRankCh r2 && isPromoCh p then
      some ([f1, r1], [f2, r2])
    else none
  | _ => none

/-- `pat` is a literal prefix of `l` (characters compared exactly). -/
def hasPrefixL : List Char → List Char → Bool
  | [], _ => true
  | _ :: _, [] => false
  | p :: ps, c :: cs => p == c && hasPrefixL ps cs

/-- Does some suffix of `l` satisfy `p`?  This is the unanchored regex
search: positions are tried left to right. -/
def anySuffix (p : List Char → Bool) : List Char → Bool
  | [] => p []
  | l@(_ :: rest) => p l || anySuffix p rest

/-- Substring test for a fixed literal pattern. -/
def containsPat (pat : List Char) (l : List Char) : Bool :=
  anySuffix (hasPrefixL pat) l

/-- Matcher for `pat1\s*pat2` at a single position (`\s*` is greedy; in
both uses the atom after it is not whitespace, so maximal munch is
exact). -/
def wsflexAt (pat1 pat2 : List Char) (l : List Char) : Bool :=
  hasPrefixL pat1 l &&
  hasPrefixL pat2 ((l.drop pat1.length).dropWhile isWsCh)

/-- Matcher for `new\s*game` at a single position. -/
def newGameAt : List Char → Bool :=
  wsflexAt ['n', 'e', 'w'] ['g', 'a', 'm', 'e']

/-- Matcher for `take\s*back` at a single position. -/
def takeBackAt : List Char → Bool :=
  wsflexAt ['t', 'a', 'k', 'e'] ['b', 'a', 'c', 'k']

/-- `/new\s*game|reset/i.test(t)`. -/
def testNewGame (t : List Char) : Bool :=
  anySuffix newGameAt (lowerL t) || containsPat ['r', 'e', 's', 'e', 't'] (lowerL t)

/-- `/undo|take\s*back/i.test(t)`. -/
def testUndo (t : List Char) : Bool :=
  containsPat ['u', 'n', 'd', 'o'] (lowerL t) || anySuffix takeBackAt (lowerL t)

/-- `/castle|castling/i.test(t)`. -/
def testCastle (t : List Char) : Bool :=
  containsPat ['c', 'a', 's', 't', 'l', 'e'] (lowerL t) ||
  containsPat ['c', 'a', 's', 't', 'l', 'i', 'n', 'g'] (lowerL t)

/-- `/queen|long/i.test(t)`. -/
def testQueenLong (t : List Char) : Bool :=
  containsPat ['q', 'u', 'e', 'e', 'n'] (lowerL t) ||
  containsPat ['l', 'o', 'n', 'g'] (lowerL t)

/-- The spoken rank-word table of `normalizeSquare`
(`{one:1, two:2, three:3, four:4, for:4, five:5, six:6, seven:7, eight:8}`). -/
def rankWordVal (w : List Char) : Option Char :=
  if w = ['o', 'n', 'e'] then some '1'
  else if w = ['t', 'w', 'o'] then some '2'
  else if w = ['t', 'h', 'r', 'e', 'e'] then some '3'
  else if w = ['f', 'o', 'u', 'r'] then some '4'
  else if w = ['f', 'o', 'r'] then some '4'
  else if w = ['f', 'i', 'v', 'e'] then some '5'
  else if w = ['s', 'i', 'x'] then some '6'
  else if w = ['s', 'e', 'v', 'e', 'n'] then some '7'
  else if w = ['e', 'i', 'g', 'h', 't'] then some '8'
  else none

/-- Lookups on `rankMap` beyond its own keys: `rankMap` is a plain object
literal, so `rankMap[rankWord]` also sees the string-keyed properties
inherited from `Object.prototype`, and every one of them is truthy
(eleven built-in functions, and the `__proto__` accessor, which yields
`Object.prototype` itself).  The template literal on line 70 then
stringifies the value: `Object.prototype` renders as `[object Object]`
(mandated by the language); the built-in functions render by the
NativeFunction grammar, which always contains `native code` and is never
a single rank digit — the exact spacing is host-defined and is modelled
here as the common rendering of the major engines. -/
def protoRankStr (w : List Char) : Option (List Char) :=
  if w = ['c', 'o', 'n', 's', 't', 'r', 'u', 'c', 't', 'o', 'r'] then
    some "function Object() \x7b [native code] \x7d".data
  else if w = ['h', 'a', 's', 'O', 'w', 'n', 'P', 'r', 'o', 'p', 'e', 'r', 't', 'y'] then
    some "function hasOwnProperty() \x7b [native code] \x7d".data
  else if w = ['i', 's', 'P', 'r', 'o', 't', 'o', 't', 'y', 'p', 'e', 'O', 'f'] then
    some "function isPrototypeOf() \x7b [native code] \x7d".data
  else if w = ['p', 'r', 'o', 'p', 'e', 'r', 't', 'y', 'I', 's', 'E', 'n', 'u', 'm',
      'e', 'r', 'a', 'b', 'l', 'e'] then
    some "function propertyIsEnumerable() \x7b [native code] \x7d".data
  else if w = ['t', 'o', 'L', 'o', 'c', 'a', 'l', 'e', 'S', 't', 'r', 'i', 'n', 'g'] then
    some "function toLocaleString() \x7b [native code] \x7d".data
  else if w = ['t', 'o', 'S', 't', 'r', 'i', 'n', 'g'] then
    some "function toString() \x7b [native code] \x7d".data
  else if w = ['v', 'a', 'l', 'u', 'e', 'O', 'f'] then
    some "function valueOf() \x7b [native code] \x7d".data
  else if w = ['_', '_', 'd', 'e', 'f', 'i', 'n', 'e', 'G', 'e', 't', 't', 'e', 'r',
      '_', '_'] then
    some "function __defineGetter__() \x7b [native code] \x7d".data
  else if w = ['_', '_', 'd', 'e', 'f', 'i', 'n', 'e', 'S', 'e', 't', 't', 'e', 'r',
      '_', '_'] then
    some "function __defineSetter__() \x7b [native code] \x7d".data
  else if w = ['_', '_', 'l', 'o', 'o', 'k', 'u', 'p', 'G', 'e', 't', 't', 'e', 'r',
      '_', '_'] then
    some "function __lookupGetter__() \x7b [native code] \x7d".data
  else if w = ['_', '_', 'l', 'o', 'o', 'k', 'u', 'p', 'S', 'e', 't', 't', 'e', 'r',
      '_', '_'] then
    some "function __lookupSetter__() \x7b [native code] \x7d".data
  else if w = ['_', '_', 'p', 'r', 'o', 't', 'o', '_', '_'] then
    some "[object Object]".data
  else none

/-- The complete `rankMap[rankWord]` lookup, stringified: an own entry of
the literal (a single rank digit) shadows the prototype chain; failing
that, the inherited `Object.prototype` properties answer. -/
def rankMapStr (w : List Char) : Option (List Char) :=
  match rankWordVal w with
  | some d => some [d]
  | none => protoRankStr w

/-- Core of `normalizeSquare` on the cleaned token: accept a direct
`[a-hA-H][1-8]` square (lowercased), otherwise decode a lowercase file
letter (`fileMap` has only lowercase keys, own or inherited single-char
keys do not exist) followed by a rank word looked up in `rankMap`,
prototype chain included. -/
def normSq : List Char → Option (List Char)
  | [] => none
  | f :: rest =>
    match rest with
    | [r] =>
      if isFileCh f && isRankCh r then some (lowerL [f, r])
      else if isFileLower f then (rankMapStr [r]).map (fun ds => f :: ds)
      else none
    | _ =>
      if isFileLower f then (rankMapStr rest).map (fun ds => f :: ds)
      else none

/-- `normalizeSquare`: trim and delete whitespace, then decode via
`normSq`.  (The source tests `^[a-hA-H][1-8]$` twice, on lines 39 and
64; both occurrences return the lowercased match, so they are embedded
once.) -/
def normalizeSquare (input : List Char) : Option (List Char) :=
  normSq (stripWs (trimL input))

/-- Match `[a-hA-H]\s*[1-8]` at the head of `l`; returns the consumed
characters (the capture group) and the remainder.  `\s*` is greedy and
the following atom is a non-whitespace digit, so maximal munch is exact. -/
def matchSquareTok : List Char → Option (List Char × List Char)
  | [] => none
  | c :: rest =>
    if isFileCh c then
      match rest.dropWhile isWsCh with
      | [] => none
      | d :: rest2 =>
        if isRankCh d then some (c :: (rest.takeWhile isWsCh ++ [d]), rest2)
        else none
    else none

/-- Case-insensitive literal prefix match (`pat` lowercase); returns the
remainder on success. -/
def matchCI : List Char → List Char → Option (List Char)
  | [], l => some l
  | _ :: _, [] => none
  | p :: ps, c :: cs => if toLowerCh c = p then matchCI ps cs else none

/-- The remainders produced by `(to|two|too)?` at a position, in the
regex engine's backtracking order: each alternative that matches, then
the empty option. -/
def connCandidates (l : List Char) : List (List Char) :=
  (match matchCI ['t', 'o'] l with | some r => [r] | none => []) ++
  (match matchCI ['t', 'w', 'o'] l with | some r => [r] | none => []) ++
  (match matchCI ['t', 'o', 'o'] l with | some r => [r] | none => []) ++ [l]

/-- Try `\s*([a-hA-H]\s*[1-8])` on each candidate remainder in order;
first success wins (the engine's backtracking over the optional
connector). -/
def firstSquareOf : List (List Char) → Option (List Char)
  | [] => none
  | r :: rs =>
    match matchSquareTok (r.dropWhile isWsCh) with
    | some (g3, _) => some g3
    | none => firstSquareOf rs

/-- Match the whole pattern
`([a-hA-H]\s*[1-8])\s*(to|two|too)?\s*([a-hA-H]\s*[1-8])` anchored at the
head of `l`; returns the two square captures. -/
def matchMoveAt (l : List Char) : Option (List Char × List Char) :=
  match matchSquareTok l with
  | none => none
  | some (g1, rest) =>
    (firstSquareOf (connCandidates (rest.dropWhile isWsCh))).map (fun g3 => (g1, g3))

/-- Unanchored search for the simple-move pattern: positions are tried
left to right, as the regex engine does. -/
def findMove : List Char → Option (List Char × List Char)
  | [] => none
  | c :: rest =>
    match matchMoveAt (c :: rest) with
    | some m => some m
    | none => findMove rest

/-- Helper for `splitWsL`: accumulates the current word (reversed). -/
def splitWsAux : List Char → List Char → List (List Char)
  | [], acc => if acc = [] then [] else [acc.reverse]
  | c :: rest, acc =>
    if isWsCh c then
      if acc = [] then splitWsAux rest []
      else acc.reverse :: splitWsAux rest []
    else splitWsAux rest (c :: acc)

/-- `split(/\s+/)` on an already-trimmed string: the whitespace-separated
words, in order. -/
def splitWsL (l : List Char) : List (List Char) :=
  splitWsAux l []

/-- Castling sides. -/
inductive CastleSide
  | kingside
  | queenside
deriving DecidableEq, Repr

/-- The parser's result type (the tagged union returned by
`parseVoiceCommand`). -/
inductive Command
  | move (fromSq toSq : List Char)
  | newgame
  | undo
  | castle (side : CastleSide)
deriving DecidableEq, Repr

/-- Strategy 5, the `"move <tok1> <tok2>"` token form: split on
whitespace, find the first literal token `move`, and if at least two
tokens follow it normalize those two tokens as squares. -/
def moveTokens (t : List Char) : Option Command :=
  match (splitWsL t).findIdx? (fun tok => tok == ['m', 'o', 'v', 'e']) with
  | none => none
  | some i =>
    if i + 3 ≤ (splitWsL t).length then
      match normalizeSquare ((splitWsL t).getD (i + 1) []),
            normalizeSquare ((splitWsL t).getD (i + 2) []) with
      | some a, some b => some (.move a b)
      | _, _ => none
    else none

/-- `parseVoiceCommand`, the ordered strategy cascade of the source:
1. compact coordinate form on the cleaned text,
2. lifecycle keywords,
3. castling keywords,
4. the natural `square (to) square` regex search,
5. the `move <tok1> <tok2>` token form. -/
def parseVoiceCommand (text : List Char) : Option Command :=
  match uciMatch (stripWs (replaceConn (lowerL (trimL text)))) with
  | some (a, b) => some (.move a b)
  | none =>
    if testNewGame (trimL text) then some .newgame
    else if testUndo (trimL text) then some .undo
    else if testCastle (trimL text) then
      if testQueenLong (trimL text) then some (.castle .queenside)
      else some (.castle .kingside)
    else
      match findMove (trimL text) with
      | some (g1, g3) =>
        match normalizeSquare g1, normalizeSquare g3 with
        | some a, some b => some (.move a b)
        | _, _ => moveTokens (trimL text)
      | none => moveTokens (trimL text)

/-! ## Listening session controller

The `VoiceController` component's state and event handlers, embedded as a
step function on an explicit state.  The platform recognizer and speech
synthesis are modelled as emitted `Output`s; the injected game callbacks
(`onMove`, `onNewGame`, `onUndo`) likewise. -/

/-- The `VoiceStatus` union type. -/
inductive VoiceStatus
  | idle
  | ready
  | listening
  | processing
  | error
  | unsupported
deriving DecidableEq, Repr

/-- The controller's mutable state: the `status` prop, the
`isListeningActive` ref (the listening intent), whether the platform
recognizer resource is currently active (`start()` throws when it is),
and the last-command observable. -/
structure CState where
  status : VoiceStatus
  intent : Bool
  recStarted : Bool
  lastCommand : Option (List Char)
deriving DecidableEq, Repr

/-- Observable side effects: spoken notices, game-control callback
invocations, and requests to the platform recognizer. -/
inductive Output
  | speakOut (msg : List Char)
  | onMoveCb (fromSq toSq : List Char)
  | onNewGameCb
  | onUndoCb
  | recStart
  | recStop
  | recAbort
deriving DecidableEq, Repr

/-- Events delivered to the controller: construction (with the result of
the capability check), the mic toggle, and the recognizer's callbacks. -/
inductive Event
  | construct (supported : Bool)
  | toggle
  | onStart
  | onEnd
  | onResult (transcript : List Char)
  | onError (code : List Char)

/-- The `status === "listening"` branch of `handleToggle` (lines
222-223): clear the listening intent and request the recognizer to stop.
It never touches `status`. -/
def stopAction (s : CState) : CState × List Output :=
  ({ s with intent := false }, [.recStop])

/-- The start branch of `handleToggle` (lines 225-231): set the
listening intent, then request the recognizer to start; if the resource
is already active the thrown exception is caught and ignored (the intent
assignment survives). -/
def startAction (s : CState) : CState × List Output :=
  let s1 := { s with intent := true }
  if s1.recStarted then (s1, [])
  else ({ s1 with recStarted := true }, [.recStart])

/-- `handleToggle`: no-op when unsupported, stop when listening,
otherwise start. -/
def handleToggle (s : CState) : CState × List Output :=
  if s.status = .unsupported then (s, [])
  else if s.status = .listening then stopAction s
  else startAction s

/-- `recognition.onstart`: status becomes `listening`. -/
def handleStart (s : CState) : CState × List Output :=
  ({ s with status := .listening }, [])

/-- `recognition.onend`: the round is over (resource inactive); if the
listening intent is still set, immediately restart (exception on an
already-active resource swallowed), else drop to `ready`. -/
def handleEnd (s : CState) : CState × List Output :=
  let s1 := { s with recStarted := false }
  if s1.intent then
    if s1.recStarted then (s1, [])
    else ({ s1 with recStarted := true }, [.recStart])
  else ({ s1 with status := .ready }, [])

/-- `recognition.onresult`: record the raw transcript, parse it, and
dispatch.  A `null` parse speaks "Invalid format."; `move`, `newgame`
and `undo` invoke their callbacks and speak a confirmation; `castle`
falls through the `if`/`else if` chain with no callback and no speech. -/
def handleResult (s : CState) (transcript : List Char) : CState × List Output :=
  let s1 := { s with lastCommand := some transcript }
  match parseVoiceCommand transcript with
  | none => (s1, [.speakOut "Invalid format.".data])
  | some (.move a b) =>
    (s1, [.onMoveCb a b,
          .speakOut ("Move ".data ++ a ++ " to ".data ++ b ++ " played.".data)])
  | some .newgame => (s1, [.onNewGameCb, .speakOut "New game started.".data])
  | some .undo => (s1, [.onUndoCb, .speakOut "Move undone.".data])
  | some (.castle _) => (s1, [])

/-- `recognition.onerror`: `no-speech` silently returns to `ready`; any
other code goes to `error` with a spoken generic notice. -/
def handleError (s : CState) (code : List Char) : CState × List Output :=
  if code = "no-speech".data then ({ s with status := .ready }, [])
  else ({ s with status := .error }, [.speakOut "An error occurred.".data])

/-- The mount effect (lines 142-216): an unsupported platform pins the
status to `unsupported`; otherwise the recognizer is configured, status
becomes `ready` and the one-time welcome notice is spoken. -/
def handleConstruct (supported : Bool) (s : CState) : CState × List Output :=
  if supported then
    ({ s with status := .ready },
     [.speakOut "Welcome to vocal chess. Start by making your move.".data])
  else ({ s with status := .unsupported }, [])

/-- One controller step: dispatch an event to its handler. -/
def step (s : CState) : Event → CState × List Output
  | .construct sup => handleConstruct sup s
  | .toggle => handleToggle s
  | .onStart => handleStart s
  | .onEnd => handleEnd s
  | .onResult tr => handleResult s tr
  | .onError c => handleError s c

/-- Run a sequence of events, accumulating the emitted outputs. -/
def runC (s : CState) : List Event → CState × List Output
  | [] => (s, [])
  | e :: es =>
    let r1 := step s e
    let r2 := runC r1.1 es
    (r2.1, r1.2 ++ r2.2)

/-- The state before construction: `idle`, no intent, recognizer
inactive, no last command. -/
def initState : CState := ⟨.idle, false, false, none⟩

/-- Is an output a move-callback invocation? -/
def isMoveCb : Output → Bool
  | .onMoveCb _ _ => true
  | _ => false

/-! ## Generators for the quantified claims -/

/-- The lowercase file letters, indexed. -/
def fileChars : List Char := ['a', 'b', 'c', 'd', 'e', 'f', 'g', 'h']

/-- The rank digits, indexed. -/
def rankChars : List Char := ['1', '2', '3', '4', '5', '6', '7', '8']

/-- The `i`-th file letter. -/
def fileChar (i : Fin 8) : Char := fileChars.get ⟨i.1, i.2⟩

/-- The `i`-th rank digit. -/
def rankChar (i : Fin 8) : Char := rankChars.get ⟨i.1, i.2⟩

/-- The canonical two-character square `fr`. -/
def sqOf (f r : Fin 8) : List Char := [fileChar f, rankChar r]

/-- A square in canonical textual form: exactly a lowercase file letter
followed by a rank digit. -/
def canonSquare : List Char → Bool
  | [f, r] => isFileLower f && isRankCh r
  | _ => false

/-- Test for the stringified values of the truthy `Object.prototype`
properties that a `rankMap[rankWord]` lookup can reach. -/
def isProtoVal (v : List Char) : Bool :=
  v == "function Object() \x7b [native code] \x7d".data ||
  v == "function hasOwnProperty() \x7b [native code] \x7d".data ||
  v == "function isPrototypeOf() \x7b [native code] \x7d".data ||
  v == "function propertyIsEnumerable() \x7b [native code] \x7d".data ||
  v == "function toLocaleString() \x7b [native code] \x7d".data ||
  v == "function toString() \x7b [native code] \x7d".data ||
  v == "function valueOf() \x7b [native code] \x7d".data ||
  v == "function __defineGetter__() \x7b [native code] \x7d".data ||
  v == "function __defineSetter__() \x7b [native code] \x7d".data ||
  v == "function __lookupGetter__() \x7b [native code] \x7d".data ||
  v == "function __lookupSetter__() \x7b [native code] \x7d".data ||
  v == "[object Object]".data

/-- A non-canonical square that the token strategy can emit: a lowercase
file letter followed by the stringification of an inherited
`Object.prototype` property. -/
def protoSquare : List Char → Bool
  | [] => false
  | f :: rest => isFileLower f && isProtoVal rest

/-- The shapes a square emitted by the parser can take: canonical, or the
file-letter-plus-prototype-stringification shape of the token strategy. -/
def goodSquare (s : List Char) : Bool := canonSquare s || protoSquare s

/-- The optional connector word between the two squares: none, `to`,
`two`, or `too`. -/
def connOf (i : Fin 4) : List Char :=
  [[], ['t', 'o'], ['t', 'w', 'o'], ['t', 'o', 'o']].get ⟨i.1, i.2⟩

/-- The optional trailing promotion letter: none, `q`, `r`, `b`, `n`. -/
def promoOf (i : Fin 5) : List Char :=
  [[], ['q'], ['r'], ['b'], ['n']].get ⟨i.1, i.2⟩

/-- The trailing part after the second rank: nothing, or optional
whitespace followed by the promotion letter. -/
def promoPart (p : Fin 5) (n5 : Nat) : List Char :=
  if p.1 = 0 then [] else spaces n5 ++ promoOf p

/-- The instance space of the amended claim C1: the compact move text
`f1 r1 f2 r2` with whitespace interspersed at every junction, an
optional connector word between the two squares, and an optional
trailing promotion letter (preceded by optional whitespace). -/
def c1Text (f1 r1 f2 r2 : Fin 8) (c : Fin 4) (n1 n2 n3 n4 n5 : Nat) (p : Fin 5) :
    List Char :=
  fileChar f1 :: (spaces n1 ++ rankChar r1 ::
    (spaces n2 ++ connOf c ++ spaces n3 ++ fileChar f2 ::
      (spaces n4 ++ rankChar r2 :: promoPart p n5)))

/-- The characters that can occur in a C1 instance text: lowercase
squares, whitespace, connector letters, promotion letters. -/
def allowedC1 (ch : Char) : Bool :=
  isFileLower ch || isRankCh ch || ch == ' ' || ch == 't' || ch == 'o' ||
    ch == 'w' || ch == 'q' || ch == 'r' || ch == 'b' || ch == 'n'

/-- What the connector leaves behind in the cleaned text: the global
replace deletes `to` and `two` entirely, but on `too` only the `to`
prefix matches, leaving a residual `o`. -/
def connResidue (c : Fin 4) : List Char := if c.1 = 3 then ['o'] else []

/-- The tail of a C9 instance: a space, a square, the connector ` to `,
and a second square. -/
def c9Tail (f1 r1 f2 r2 : Fin 8) : List Char :=
  ' ' :: (sqOf f1 r1 ++ ' ' :: 't' :: 'o' :: ' ' :: sqOf f2 r2)

/-- The instance space of claim C9: a leading word followed by the
square-to-square phrase. -/
def c9Text (w : List Char) (f1 r1 f2 r2 : Fin 8) : List Char :=
  w ++ c9Tail f1 r1 f2 r2

example : parseVoiceCommand "e2 to e4".data = some (.move ['e', '2'] ['e', '4']) := by decide
example : parseVoiceCommand "e2e4".data = some (.move ['e', '2'] ['e', '4']) := by decide
example : parseVoiceCommand "e 2 two e 4".data = some (.move ['e', '2'] ['e', '4']) := by decide
example : parseVoiceCommand "banana".data = none := by decide
example : parseVoiceCommand "new game".data = some .newgame := by decide
example : parseVoiceCommand "take back".data = some .undo := by decide
example : parseVoiceCommand "castle long".data = some (.castle .queenside) := by decide
example : parseVoiceCommand "knight g1 to f3".data = some (.move ['g', '1'] ['f', '3']) := by decide
example : parseVoiceCommand "a7a8q".data = some (.move ['a', '7'] ['a', '8']) := by decide
example : parseVoiceCommand "move e two e four".data = none := by decide
example : parseVoiceCommand "move etwo efour".data = some (.move ['e', '2'] ['e', '4']) := by decide
example : parseVoiceCommand "preset".data = some .newgame := by decide
example : parseVoiceCommand "rundown".data = some .undo := by decide
example : parseVoiceCommand "e too 2 e4".data = none := by decide
example : parseVoiceCommand "e2 too e4".data = some (.move ['e', '2'] ['e', '4']) := by decide
example : normalizeSquare "aconstructor".data =
    some ('a' :: "function Object() \x7b [native code] \x7d".data) := by decide
example : normalizeSquare "a__proto__".data = some "a[object Object]".data := by decide
example : normalizeSquare "aproto".data = none := by decide

/-! ## Character-class facts -/

lemma isFileLower_fileChar : ∀ i : Fin 8, isFileLower (fileChar i) = true := by decide

lemma isFileCh_fileChar : ∀ i : Fin 8, isFileCh (fileChar i) = true := by decide

lemma isRankCh_rankChar : ∀ i : Fin 8, isRankCh (rankChar i) = true := by decide

lemma isWsCh_fileChar : ∀ i : Fin 8, isWsCh (fileChar i) = false := by decide

lemma isWsCh_rankChar : ∀ i : Fin 8, isWsCh (rankChar i) = false := by decide

lemma fileChar_ne_t : ∀ i : Fin 8, fileChar i ≠ 't' := by decide

lemma rankChar_ne_t : ∀ i : Fin 8, rankChar i ≠ 't' := by decide

lemma isRankCh_fileChar : ∀ i : Fin 8, isRankCh (fileChar i) = false := by decide

lemma isFileCh_rankChar : ∀ i : Fin 8, isFileCh (rankChar i) = false := by decide

lemma toLowerCh_fileChar : ∀ i : Fin 8, toLowerCh (fileChar i) = fileChar i := by decide

lemma toLowerCh_rankChar : ∀ i : Fin 8, toLowerCh (rankChar i) = rankChar i := by decide

lemma toLowerCh_eq_self (c : Char)
    (h : c ∉ (['A', 'B', 'C', 'D', 'E', 'F', 'G', 'H', 'I', 'J', 'K', 'L', 'M',
               'N', 'O', 'P', 'Q', 'R', 'S', 'T', 'U', 'V', 'W', 'X', 'Y', 'Z'] :
              List Char)) :
    toLowerCh c = c := by
  simp only [List.mem_cons, List.not_mem_nil, or_false, not_or] at h
  obtain ⟨h1, h2, h3, h4, h5, h6, h7, h8, h9, h10, h11, h12, h13, h14, h15, h16,
    h17, h18, h19, h20, h21, h22, h23, h24, h25, h26⟩ := h
  unfold toLowerCh
  rw [if_neg h1, if_neg h2, if_neg h3, if_neg h4, if_neg h5, if_neg h6, if_neg h7,
    if_neg h8, if_neg h9, if_neg h10, if_neg h11, if_neg h12, if_neg h13, if_neg h14,
    if_neg h15, if_neg h16, if_neg h17, if_neg h18, if_neg h19, if_neg h20,
    if_neg h21, if_neg h22, if_neg h23, if_neg h24, if_neg h25, if_neg h26]

lemma isWsCh_toLowerCh (c : Char) : isWsCh (toLowerCh c) = isWsCh c := by
  by_cases hm : c ∈ (['A', 'B', 'C', 'D', 'E', 'F', 'G', 'H', 'I', 'J', 'K', 'L',
      'M', 'N', 'O', 'P', 'Q', 'R', 'S', 'T', 'U', 'V', 'W', 'X', 'Y', 'Z'] :
      List Char)
  · fin_cases hm <;> rfl
  · rw [toLowerCh_eq_self c hm]

lemma isRankCh_toLowerCh (c : Char) : isRankCh (toLowerCh c) = isRankCh c := by
  by_cases hm : c ∈ (['A', 'B', 'C', 'D', 'E', 'F', 'G', 'H', 'I', 'J', 'K', 'L',
      'M', 'N', 'O', 'P', 'Q', 'R', 'S', 'T', 'U', 'V', 'W', 'X', 'Y', 'Z'] :
      List Char)
  · fin_cases hm <;> rfl
  · rw [toLowerCh_eq_self c hm]

lemma mem_of_isFileCh (c : Char) (h : isFileCh c = true) :
    c ∈ (['a', 'b', 'c', 'd', 'e', 'f', 'g', 'h',
          'A', 'B', 'C', 'D', 'E', 'F', 'G', 'H'] : List Char) := by
  simp only [isFileCh, isFileLower, Bool.or_eq_true, beq_iff_eq] at h
  simp only [List.mem_cons, List.not_mem_nil, or_false]
  tauto

lemma mem_of_isRankCh (c : Char) (h : isRankCh c = true) :
    c ∈ (['1', '2', '3', '4', '5', '6', '7', '8'] : List Char) := by
  simp only [isRankCh, Bool.or_eq_true, beq_iff_eq] at h
  simp only [List.mem_cons, List.not_mem_nil, or_false]
  tauto

lemma isFileLower_toLowerCh_of_isFileCh (c : Char) (h : isFileCh c = true) :
    isFileLower (toLowerCh c) = true := by
  have hm := mem_of_isFileCh c h
  fin_cases hm <;> rfl

lemma toLowerCh_of_isRankCh (c : Char) (h : isRankCh c = true) : toLowerCh c = c := by
  have hm := mem_of_isRankCh c h
  fin_cases hm <;> rfl

/-! ## Whitespace and list plumbing -/

lemma dropWhile_spaces_append (n : Nat) (l : List Char) :
    (spaces n ++ l).dropWhile isWsCh = l.dropWhile isWsCh := by
  induction n with
  | zero => simp [spaces]
  | succ k ih => simpa [spaces, List.replicate_succ] using ih

lemma dropWhile_cons_not_ws (c : Char) (l : List Char) (h : isWsCh c = false) :
    (c :: l).dropWhile isWsCh = c :: l := by
  simp [List.dropWhile_cons, h]

lemma isWsCh_space : isWsCh ' ' = true := rfl

lemma spaces_succ (k : Nat) : spaces (k + 1) = ' ' :: spaces k := rfl

lemma takeWhile_spaces_append (n : Nat) (c : Char) (l : List Char)
    (h : isWsCh c = false) :
    (spaces n ++ c :: l).takeWhile isWsCh = spaces n := by
  induction n with
  | zero => simp [spaces, List.takeWhile_cons, h]
  | succ k ih =>
    rw [spaces_succ, List.cons_append, List.takeWhile_cons, isWsCh_space, if_pos rfl, ih]

lemma stripWs_append (a b : List Char) :
    stripWs (a ++ b) = stripWs a ++ stripWs b := by
  simp [stripWs, List.filter_append]

lemma stripWs_spaces (n : Nat) : stripWs (spaces n) = [] := by
  induction n with
  | zero => rfl
  | succ k ih =>
    rw [spaces_succ]
    show List.filter (fun c => !isWsCh c) (' ' :: spaces k) = []
    rw [List.filter_cons]
    rw [if_neg (by rw [isWsCh_space]; simp)]
    exact ih

lemma stripWs_cons_not_ws (c : Char) (l : List Char) (h : isWsCh c = false) :
    stripWs (c :: l) = c :: stripWs l := by
  simp [stripWs, List.filter_cons, h]

lemma stripWs_dropWhile (l : List Char) :
    stripWs (l.dropWhile isWsCh) = stripWs l := by
  induction l with
  | nil => rfl
  | cons c rest ih =>
    by_cases h : isWsCh c = true
    · simpa [List.dropWhile_cons, h, stripWs, List.filter_cons] using ih
    · simp [List.dropWhile_cons, h]

lemma stripWs_reverse (l : List Char) : stripWs l.reverse = (stripWs l).reverse := by
  simp [stripWs, List.filter_reverse]

lemma stripWs_trimL (l : List Char) : stripWs (trimL l) = stripWs l := by
  unfold trimL
  rw [stripWs_reverse, stripWs_dropWhile, stripWs_reverse, List.reverse_reverse,
    stripWs_dropWhile]

lemma trimL_eq_self (l : List Char)
    (h1 : ∀ c, l.head? = some c → isWsCh c = false)
    (h2 : ∀ c, l.getLast? = some c → isWsCh c = false) :
    trimL l = l := by
  unfold trimL
  have e1 : l.dropWhile isWsCh = l := by
    cases l with
    | nil => rfl
    | cons c rest => exact dropWhile_cons_not_ws c rest (h1 c rfl)
  rw [e1]
  have e2 : l.reverse.dropWhile isWsCh = l.reverse := by
    cases hr : l.reverse with
    | nil => rfl
    | cons c rest =>
      have hc : l.getLast? = some c := by
        rw [← List.head?_reverse, hr]; rfl
      exact dropWhile_cons_not_ws c rest (h2 c hc)
  rw [e2, List.reverse_reverse]

lemma lowerL_append (a b : List Char) : lowerL (a ++ b) = lowerL a ++ lowerL b := by
  simp [lowerL]

lemma lowerL_spaces (n : Nat) : lowerL (spaces n) = spaces n := by
  induction n with
  | zero => rfl
  | succ k ih =>
    rw [spaces_succ]
    show toLowerCh ' ' :: lowerL (spaces k) = ' ' :: spaces k
    rw [show toLowerCh ' ' = ' ' from rfl, ih]

/-! ## Facts about the connector replacement -/

lemma replaceConn_to (l : List Char) : replaceConn ('t' :: 'o' :: l) = replaceConn l :=
  rfl

lemma replaceConn_two (l : List Char) :
    replaceConn ('t' :: 'w' :: 'o' :: l) = replaceConn l := rfl

lemma replaceConn_cons_ne_t (c : Char) (l : List Char) (h : c ≠ 't') :
    replaceConn (c :: l) = c :: replaceConn l := by
  rw [replaceConn.eq_def]
  split
  · rename_i heq
    injection heq with h1 _
    exact absurd h1 h
  · rename_i heq
    injection heq with h1 _
    exact absurd h1 h
  · rename_i c1 rest heq
    injection heq with h1 h2
    subst h1; subst h2; rfl
  · rename_i heq
    simp at heq

lemma replaceConn_t_stuck (a : List Char)
    (h1 : a.head? ≠ some 'o')
    (h2 : ¬(a.head? = some 'w' ∧ a.tail.head? = some 'o')) :
    replaceConn ('t' :: a) = 't' :: replaceConn a := by
  rw [replaceConn.eq_def]
  split
  · rename_i heq
    injection heq with _ hrest
    exact absurd (by rw [hrest]; rfl) h1
  · rename_i heq
    injection heq with _ hrest
    exact absurd (by rw [hrest]; exact ⟨rfl, rfl⟩) h2
  · rename_i c1 rest heq
    injection heq with hc hrest
    subst hc; subst hrest; rfl
  · rename_i heq
    simp at heq

lemma replaceConn_no_t (l : List Char) (h : ∀ c ∈ l, c ≠ 't') :
    replaceConn l = l := by
  induction l with
  | nil => rfl
  | cons c rest ih =>
    rw [replaceConn_cons_ne_t c rest (h c (by simp))]
    rw [ih (fun x hx => h x (by simp [hx]))]

lemma replaceConn_append_no_t (a b : List Char) (h : ∀ c ∈ a, c ≠ 't') :
    replaceConn (a ++ b) = a ++ replaceConn b := by
  induction a with
  | nil => rfl
  | cons c rest ih =>
    rw [List.cons_append, replaceConn_cons_ne_t c _ (h c (by simp))]
    rw [ih (fun x hx => h x (by simp [hx]))]
    rfl

lemma replaceConn_append_sp (b : List Char) (hb : b.head? = some ' ') :
    ∀ a : List Char, replaceConn (a ++ b) = replaceConn a ++ replaceConn b := by
  have key : ∀ n (a : List Char), a.length ≤ n →
      replaceConn (a ++ b) = replaceConn a ++ replaceConn b := by
    intro n
    induction n with
    | zero =>
      intro a ha
      have : a = [] := List.length_eq_zero.mp (Nat.le_zero.mp ha)
      subst this; rfl
    | succ n ih =>
      intro a ha
      rcases a with _ | ⟨c, a'⟩
      · rfl
      by_cases hc : c = 't'
      · subst hc
        rcases a' with _ | ⟨x, a2⟩
        · have hstuck : replaceConn ('t' :: b) = 't' :: replaceConn b := by
            apply replaceConn_t_stuck
            · rw [hb]; simp
            · rw [hb]; simp
          simpa using hstuck
        by_cases hx : x = 'o'
        · subst hx
          rw [show ('t' :: 'o' :: a2) ++ b = 't' :: 'o' :: (a2 ++ b) from rfl,
            replaceConn_to, replaceConn_to]
          exact ih a2 (by simp at ha ⊢; omega)
        by_cases hw : x = 'w'
        · subst hw
          rcases a2 with _ | ⟨y, a3⟩
          · have hstuck : replaceConn ('t' :: 'w' :: b) =
                't' :: replaceConn ('w' :: b) := by
              apply replaceConn_t_stuck
              · simp
              · rw [show ('w' :: b).tail = b from rfl, hb]; simp
            have hwstep : replaceConn ('w' :: b) = 'w' :: replaceConn b :=
              replaceConn_cons_ne_t 'w' b (by decide)
            simp only [List.cons_append, List.nil_append]
            rw [hstuck, hwstep]
            rfl
          by_cases hy : y = 'o'
          · subst hy
            rw [show ('t' :: 'w' :: 'o' :: a3) ++ b = 't' :: 'w' :: 'o' :: (a3 ++ b)
                from rfl,
              replaceConn_two, replaceConn_two]
            exact ih a3 (by simp at ha ⊢; omega)
          · have hstuck1 :
                replaceConn ('t' :: ('w' :: y :: a3) ++ b) =
                  't' :: replaceConn (('w' :: y :: a3) ++ b) := by
              apply replaceConn_t_stuck
              · simp
              · simp [hy]
            have hstuck2 :
                replaceConn ('t' :: 'w' :: y :: a3) =
                  't' :: replaceConn ('w' :: y :: a3) := by
              apply replaceConn_t_stuck
              · simp
              · simp [hy]
            rw [show ('t' :: 'w' :: y :: a3) ++ b = 't' :: ('w' :: y :: a3) ++ b
                from rfl,
              hstuck1, hstuck2]
            rw [ih ('w' :: y :: a3) (by simp at ha ⊢; omega)]
            rfl
        · have hstuck1 :
              replaceConn ('t' :: (x :: a2) ++ b) =
                't' :: replaceConn ((x :: a2) ++ b) := by
            apply replaceConn_t_stuck
            · simp [hx]
            · simp [hw]
          have hstuck2 : replaceConn ('t' :: x :: a2) =
              't' :: replaceConn (x :: a2) := by
            apply replaceConn_t_stuck
            · simp [hx]
            · simp [hw]
          rw [show ('t' :: x :: a2) ++ b = 't' :: (x :: a2) ++ b from rfl,
            hstuck1, hstuck2]
          rw [ih (x :: a2) (by simp at ha ⊢; omega)]
          rfl
      · rw [List.cons_append, replaceConn_cons_ne_t c _ hc, replaceConn_cons_ne_t c _ hc]
        rw [ih a' (by simp at ha ⊢; omega)]
        rfl
  intro a
  exact key a.length a (le_refl _)

/-! ## Facts about the substring search -/

lemma hasPrefixL_mem (pat l : List Char) (h : hasPrefixL pat l = true) :
    ∀ ch ∈ pat, ch ∈ l := by
  induction pat generalizing l with
  | nil => intro ch hch; exact absurd hch (by simp)
  | cons p ps ih =>
    cases l with
    | nil => exact absurd h (by simp [hasPrefixL])
    | cons c cs =>
      simp only [hasPrefixL, Bool.and_eq_true, beq_iff_eq] at h
      intro ch hch
      rcases List.mem_cons.mp hch with hch | hch
      · subst hch; rw [h.1]; exact List.mem_cons_self _ _
      · exact List.mem_cons_of_mem _ (ih cs h.2 ch hch)

lemma hasPrefixL_of_append (pat a b : List Char)
    (h : hasPrefixL pat (a ++ b) = true) (hlen : pat.length ≤ a.length) :
    hasPrefixL pat a = true := by
  induction pat generalizing a with
  | nil => rfl
  | cons p ps ih =>
    cases a with
    | nil => simp at hlen
    | cons c cs =>
      simp only [List.cons_append, hasPrefixL, Bool.and_eq_true] at h ⊢
      exact ⟨h.1, ih cs h.2 (by simpa using hlen)⟩

lemma hasPrefixL_append_long (pat a : List Char) (x : Char) (b : List Char)
    (h : hasPrefixL pat (a ++ x :: b) = true) :
    pat.length ≤ a.length ∨ x ∈ pat := by
  induction pat generalizing a with
  | nil => exact Or.inl (by simp)
  | cons p ps ih =>
    cases a with
    | nil =>
      simp only [List.nil_append, hasPrefixL, Bool.and_eq_true, beq_iff_eq] at h
      exact Or.inr (by rw [h.1]; exact List.mem_cons_self _ _)
    | cons c cs =>
      simp only [List.cons_append, hasPrefixL, Bool.and_eq_true] at h
      rcases ih cs h.2 with hl | hx
      · exact Or.inl (by simpa using hl)
      · exact Or.inr (List.mem_cons_of_mem _ hx)

lemma anySuffix_exists (p : List Char → Bool) (l : List Char)
    (h : anySuffix p l = true) : ∃ s, s <:+ l ∧ p s = true := by
  induction l with
  | nil => exact ⟨[], List.suffix_refl [], h⟩
  | cons c rest ih =>
    simp only [anySuffix, Bool.or_eq_true] at h
    rcases h with h | h
    · exact ⟨c :: rest, List.suffix_refl _, h⟩
    · obtain ⟨s, hs, hp⟩ := ih h
      exact ⟨s, hs.trans (List.suffix_cons c rest), hp⟩

lemma anySuffix_of_suffix (p : List Char → Bool) (l s : List Char)
    (hs : s <:+ l) (h : p s = true) : anySuffix p l = true := by
  induction l with
  | nil =>
    rw [List.suffix_nil.mp hs] at h
    exact h
  | cons c rest ih =>
    rcases List.suffix_cons_iff.mp hs with hs | hs
    · subst hs; simp [anySuffix, h]
    · simp [anySuffix, ih hs]

lemma anySuffix_append_split (p : List Char → Bool) (a b : List Char)
    (h : anySuffix p (a ++ b) = true) :
    (∃ s, s <:+ a ∧ s ≠ [] ∧ p (s ++ b) = true) ∨ anySuffix p b = true := by
  induction a with
  | nil => exact Or.inr h
  | cons c rest ih =>
    rw [List.cons_append] at h
    simp only [anySuffix, Bool.or_eq_true] at h
    rcases h with h | h
    · exact Or.inl ⟨c :: rest, List.suffix_refl _, by simp, by simpa using h⟩
    · rcases ih h with ⟨s, hs, hne, hp⟩ | h
      · exact Or.inl ⟨s, hs.trans (List.suffix_cons c rest), hne, hp⟩
      · exact Or.inr h

lemma containsPat_mem (pat l : List Char) (h : containsPat pat l = true) :
    ∀ ch ∈ pat, ch ∈ l := by
  obtain ⟨s, hs, hp⟩ := anySuffix_exists _ _ h
  intro ch hch
  exact hs.sublist.mem (hasPrefixL_mem pat s hp ch hch)

lemma containsPat_append_false (pat a b : List Char) (x : Char) (b' : List Char)
    (hb : b = x :: b') (hx : x ∉ pat)
    (hpa : containsPat pat a = false) (hpb : containsPat pat b = false) :
    containsPat pat (a ++ b) = false := by
  by_contra hcon
  have h : containsPat pat (a ++ b) = true := by
    cases hval : containsPat pat (a ++ b)
    · exact absurd hval hcon
    · rfl
  rcases anySuffix_append_split _ a b h with ⟨s, hs, hne, hp⟩ | h
  · subst hb
    rcases hasPrefixL_append_long pat s x b' hp with hl | hmem
    · have : containsPat pat a = true :=
        anySuffix_of_suffix _ a s hs (hasPrefixL_of_append pat s _ hp hl)
      rw [this] at hpa; exact absurd hpa (by simp)
    · exact absurd hmem hx
  · rw [containsPat] at hpb
    rw [h] at hpb
    exact absurd hpb (by simp)

lemma wsflexAt_mem (p1 p2 l : List Char) (h : wsflexAt p1 p2 l = true) :
    (∀ ch ∈ p1, ch ∈ l) ∧ (∀ ch ∈ p2, ch ∈ l) := by
  simp only [wsflexAt, Bool.and_eq_true] at h
  refine ⟨hasPrefixL_mem _ _ h.1, fun ch hch => ?_⟩
  have h2 := hasPrefixL_mem _ _ h.2 ch hch
  have h3 : ch ∈ l.drop p1.length :=
    (List.dropWhile_sublist _).mem h2
  exact (List.drop_sublist _ _).mem h3

lemma anySuffix_wsflex_mem (p1 p2 l : List Char)
    (h : anySuffix (wsflexAt p1 p2) l = true) :
    (∀ ch ∈ p1, ch ∈ l) ∧ (∀ ch ∈ p2, ch ∈ l) := by
  obtain ⟨s, hs, hp⟩ := anySuffix_exists _ _ h
  have hm := wsflexAt_mem p1 p2 s hp
  exact ⟨fun ch hch => hs.sublist.mem (hm.1 ch hch),
    fun ch hch => hs.sublist.mem (hm.2 ch hch)⟩

lemma wsflex_append_false (p1 p2 a b : List Char)
    (hsp1 : ' ' ∉ p1) (hsp2 : ' ' ∉ p2)
    (haws : ∀ ch ∈ a, isWsCh ch = false)
    (hna : anySuffix (wsflexAt p1 p2) a = false)
    (hnb : anySuffix (wsflexAt p1 p2) b = false)
    (hbh : ∃ b', b = ' ' :: b')
    (hdrop : hasPrefixL p2 (b.dropWhile isWsCh) = false) :
    anySuffix (wsflexAt p1 p2) (a ++ b) = false := by
  obtain ⟨b', rfl⟩ := hbh
  by_contra hcon
  have h : anySuffix (wsflexAt p1 p2) (a ++ ' ' :: b') = true := by
    cases hval : anySuffix (wsflexAt p1 p2) (a ++ ' ' :: b')
    · exact absurd hval hcon
    · rfl
  rcases anySuffix_append_split _ a _ h with ⟨s, hs, hne, hp⟩ | h
  · simp only [wsflexAt, Bool.and_eq_true] at hp
    rcases hasPrefixL_append_long p1 s ' ' b' hp.1 with hl1 | hmem1
    · have hpre1 : hasPrefixL p1 s = true := hasPrefixL_of_append p1 s _ hp.1 hl1
      have hdropeq : (s ++ ' ' :: b').drop p1.length = s.drop p1.length ++ ' ' :: b' :=
        List.drop_append_of_le_length hl1
      rw [hdropeq] at hp
      cases hsd : s.drop p1.length with
      | nil =>
        rw [hsd] at hp
        simp only [List.nil_append] at hp
        rw [hp.2] at hdrop
        exact absurd hdrop (by simp)
      | cons z s' =>
        have hz : isWsCh z = false := by
          apply haws
          apply hs.sublist.mem
          have : z ∈ s.drop p1.length := by rw [hsd]; exact List.mem_cons_self _ _
          exact (List.drop_sublist _ _).mem this
        rw [hsd] at hp
        rw [List.cons_append, dropWhile_cons_not_ws z _ hz] at hp
        rcases hasPrefixL_append_long p2 (z :: s') ' ' b'
            (by simpa using hp.2) with hl2 | hmem2
        · have hfit : wsflexAt p1 p2 s = true := by
            simp only [wsflexAt, Bool.and_eq_true]
            refine ⟨hpre1, ?_⟩
            rw [hsd, dropWhile_cons_not_ws z _ hz]
            exact hasPrefixL_of_append p2 _ (' ' :: b') (by simpa using hp.2) hl2
          have : anySuffix (wsflexAt p1 p2) a = true :=
            anySuffix_of_suffix _ a s hs hfit
          rw [this] at hna; exact absurd hna (by simp)
        · exact absurd hmem2 hsp2
    · exact absurd hmem1 hsp1
  · rw [h] at hnb; exact absurd hnb (by simp)

/-! ## Facts about the square-token matcher and the square normalizer -/

lemma matchSquareTok_cons_not_file (c : Char) (l : List Char) (hc : isFileCh c = false) :
    matchSquareTok (c :: l) = none := by
  simp [matchSquareTok, hc]

lemma matchSquareTok_none_of_not_rank (c : Char) (l : List Char)
    (h : ∀ d, (l.dropWhile isWsCh).head? = some d → isRankCh d = false) :
    matchSquareTok (c :: l) = none := by
  by_cases hc : isFileCh c = true
  · cases hld : l.dropWhile isWsCh with
    | nil => simp [matchSquareTok, hc, hld]
    | cons d rest2 =>
      have hd := h d (by rw [hld]; rfl)
      simp [matchSquareTok, hc, hld, hd]
  · simp [matchSquareTok, hc]

lemma matchSquareTok_spaces (c : Char) (n : Nat) (d : Char) (l : List Char)
    (hc : isFileCh c = true) (hd : isRankCh d = true) (hdw : isWsCh d = false) :
    matchSquareTok (c :: (spaces n ++ d :: l)) = some (c :: (spaces n ++ [d]), l) := by
  have h1 : (spaces n ++ d :: l).dropWhile isWsCh = d :: l := by
    rw [dropWhile_spaces_append, dropWhile_cons_not_ws d l hdw]
  have h2 : (spaces n ++ d :: l).takeWhile isWsCh = spaces n :=
    takeWhile_spaces_append n d l hdw
  simp [matchSquareTok, hc, hd, h1, h2]

lemma rankWordVal_rank (w : List Char) (r : Char) (h : rankWordVal w = some r) :
    isRankCh r = true := by
  unfold rankWordVal at h
  split_ifs at h <;> (injection h with h1) <;> (subst h1; rfl)

lemma normSq_nil : normSq [] = none := rfl

lemma normSq_single (f : Char) :
    normSq [f] =
      (if isFileLower f = true then (rankMapStr []).map (fun ds => f :: ds) else none) :=
  rfl

lemma normSq_pair (f r : Char) :
    normSq [f, r] =
      (if (isFileCh f && isRankCh r) = true then some (lowerL [f, r])
       else if isFileLower f = true then (rankMapStr [r]).map (fun ds => f :: ds)
       else none) :=
  rfl

lemma normSq_long (f r x : Char) (rest : List Char) :
    normSq (f :: r :: x :: rest) =
      (if isFileLower f = true then
        (rankMapStr (r :: x :: rest)).map (fun ds => f :: ds)
      else none) :=
  rfl

lemma rankMapStr_nil : rankMapStr [] = none := rfl

lemma rankMapStr_single (r : Char) : rankMapStr [r] = none := by
  simp [rankMapStr, rankWordVal, protoRankStr]

lemma protoRankStr_val (w v : List Char) (h : protoRankStr w = some v) :
    isProtoVal v = true := by
  unfold protoRankStr at h
  by_cases h1 : w = ['c', 'o', 'n', 's', 't', 'r', 'u', 'c', 't', 'o', 'r']
  · rw [if_pos h1] at h; injection h with hv; subst hv; decide
  rw [if_neg h1] at h
  by_cases h2 : w = ['h', 'a', 's', 'O', 'w', 'n', 'P', 'r', 'o', 'p', 'e', 'r', 't', 'y']
  · rw [if_pos h2] at h; injection h with hv; subst hv; decide
  rw [if_neg h2] at h
  by_cases h3 : w = ['i', 's', 'P', 'r', 'o', 't', 'o', 't', 'y', 'p', 'e', 'O', 'f']
  · rw [if_pos h3] at h; injection h with hv; subst hv; decide
  rw [if_neg h3] at h
  by_cases h4 : w = ['p', 'r', 'o', 'p', 'e', 'r', 't', 'y', 'I', 's', 'E', 'n', 'u', 'm',
      'e', 'r', 'a', 'b', 'l', 'e']
  · rw [if_pos h4] at h; injection h with hv; subst hv; decide
  rw [if_neg h4] at h
  by_cases h5 : w = ['t', 'o', 'L', 'o', 'c', 'a', 'l', 'e', 'S', 't', 'r', 'i', 'n', 'g']
  · rw [if_pos h5] at h; injection h with hv; subst hv; decide
  rw [if_neg h5] at h
  by_cases h6 : w = ['t', 'o', 'S', 't', 'r', 'i', 'n', 'g']
  · rw [if_pos h6] at h; injection h with hv; subst hv; decide
  rw [if_neg h6] at h
  by_cases h7 : w = ['v', 'a', 'l', 'u', 'e', 'O', 'f']
  · rw [if_pos h7] at h; injection h with hv; subst hv; decide
  rw [if_neg h7] at h
  by_cases h8 : w = ['_', '_', 'd', 'e', 'f', 'i', 'n', 'e', 'G', 'e', 't', 't', 'e', 'r',
      '_', '_']
  · rw [if_pos h8] at h; injection h with hv; subst hv; decide
  rw [if_neg h8] at h
  by_cases h9 : w = ['_', '_', 'd', 'e', 'f', 'i', 'n', 'e', 'S', 'e', 't', 't', 'e', 'r',
      '_', '_']
  · rw [if_pos h9] at h; injection h with hv; subst hv; decide
  rw [if_neg h9] at h
  by_cases hA : w = ['_', '_', 'l', 'o', 'o', 'k', 'u', 'p', 'G', 'e', 't', 't', 'e', 'r',
      '_', '_']
  · rw [if_pos hA] at h; injection h with hv; subst hv; decide
  rw [if_neg hA] at h
  by_cases hB : w = ['_', '_', 'l', 'o', 'o', 'k', 'u', 'p', 'S', 'e', 't', 't', 'e', 'r',
      '_', '_']
  · rw [if_pos hB] at h; injection h with hv; subst hv; decide
  rw [if_neg hB] at h
  by_cases hC : w = ['_', '_', 'p', 'r', 'o', 't', 'o', '_', '_']
  · rw [if_pos hC] at h; injection h with hv; subst hv; decide
  rw [if_neg hC] at h
  exact absurd h (by simp)

lemma goodSquare_of_canon (s : List Char) (h : canonSquare s = true) :
    goodSquare s = true := by
  simp [goodSquare, h]

lemma rankMapStr_good (f : Char) (w ds : List Char) (hf : isFileLower f = true)
    (h : rankMapStr w = some ds) : goodSquare (f :: ds) = true := by
  unfold rankMapStr at h
  cases hrw : rankWordVal w with
  | some d =>
    rw [hrw] at h
    injection h with h1
    subst h1
    exact goodSquare_of_canon _ (by simp [canonSquare, hf, rankWordVal_rank w d hrw])
  | none =>
    rw [hrw] at h
    have hv : isProtoVal ds = true := protoRankStr_val w ds h
    simp [goodSquare, protoSquare, hf, hv]

lemma normSq_good (l s : List Char) (h : normSq l = some s) : goodSquare s = true := by
  rcases l with _ | ⟨f, _ | ⟨r, _ | ⟨x, rest3⟩⟩⟩
  · exact absurd h (by simp [normSq_nil])
  · rw [normSq_single] at h
    by_cases hf : isFileLower f = true
    · rw [if_pos hf, rankMapStr_nil] at h
      exact absurd h (by simp)
    · rw [if_neg hf] at h
      exact absurd h (by simp)
  · rw [normSq_pair] at h
    by_cases hfr : (isFileCh f && isRankCh r) = true
    · rw [if_pos hfr] at h
      injection h with h1
      subst h1
      simp only [Bool.and_eq_true] at hfr
      exact goodSquare_of_canon _ (by
        simp [canonSquare, lowerL, isFileLower_toLowerCh_of_isFileCh f hfr.1,
          isRankCh_toLowerCh, hfr.2])
    · rw [if_neg hfr] at h
      by_cases hf : isFileLower f = true
      · rw [if_pos hf, rankMapStr_single] at h
        exact absurd h (by simp)
      · rw [if_neg hf] at h
        exact absurd h (by simp)
  · rw [normSq_long] at h
    by_cases hf : isFileLower f = true
    · rw [if_pos hf] at h
      cases hrw : rankMapStr (r :: x :: rest3) with
      | none => rw [hrw] at h; exact absurd h (by simp)
      | some ds =>
        rw [hrw] at h
        simp only [Option.map] at h
        injection h with h1
        subst h1
        exact rankMapStr_good f _ ds hf hrw
    · rw [if_neg hf] at h
      exact absurd h (by simp)

lemma normalizeSquare_good (l s : List Char) (h : normalizeSquare l = some s) :
    goodSquare s = true :=
  normSq_good _ s h

lemma normalizeSquare_file_spaces_rank (c : Char) (n : Nat) (d : Char)
    (hc : isFileCh c = true) (hd : isRankCh d = true)
    (hcw : isWsCh c = false) (hdw : isWsCh d = false) :
    normalizeSquare (c :: (spaces n ++ [d])) = some [toLowerCh c, toLowerCh d] := by
  unfold normalizeSquare
  have hcl : stripWs (trimL (c :: (spaces n ++ [d]))) = [c, d] := by
    rw [stripWs_trimL, stripWs_cons_not_ws c _ hcw, stripWs_append, stripWs_spaces,
      stripWs_cons_not_ws d _ hdw]
    rfl
  rw [hcl, normSq_pair, if_pos (by simp [hc, hd])]
  rfl

lemma uciMatch_nil : uciMatch [] = none := rfl

lemma uciMatch_one (c1 : Char) : uciMatch [c1] = none := rfl

lemma uciMatch_two (c1 c2 : Char) : uciMatch [c1, c2] = none := rfl

lemma uciMatch_three (c1 c2 c3 : Char) : uciMatch [c1, c2, c3] = none := rfl

lemma uciMatch_four (c1 c2 c3 c4 : Char) :
    uciMatch [c1, c2, c3, c4] =
      (if (isFileLower c1 && isRankCh c2 && isFileLower c3 && isRankCh c4) = true then
        some ([c1, c2], [c3, c4])
      else none) :=
  rfl

lemma uciMatch_five (c1 c2 c3 c4 c5 : Char) :
    uciMatch [c1, c2, c3, c4, c5] =
      (if (isFileLower c1 && isRankCh c2 && isFileLower c3 && isRankCh c4 &&
           isPromoCh c5) = true then
        some ([c1, c2], [c3, c4])
      else none) :=
  rfl

lemma uciMatch_long (c1 c2 c3 c4 c5 c6 : Char) (l7 : List Char) :
    uciMatch (c1 :: c2 :: c3 :: c4 :: c5 :: c6 :: l7) = none :=
  rfl

lemma uciMatch_none_of_long (l : List Char) (h : 6 ≤ l.length) : uciMatch l = none := by
  rcases l with _ | ⟨c1, _ | ⟨c2, _ | ⟨c3, _ | ⟨c4, _ | ⟨c5, _ | ⟨c6, l7⟩⟩⟩⟩⟩⟩
  · simp at h
  · simp at h
  · simp at h
  · simp at h
  · simp at h
  · simp at h
  · exact uciMatch_long c1 c2 c3 c4 c5 c6 l7

lemma uciMatch_canon (l a b : List Char) (h : uciMatch l = some (a, b)) :
    canonSquare a = true ∧ canonSquare b = true := by
  rcases l with _ | ⟨c1, _ | ⟨c2, _ | ⟨c3, _ | ⟨c4, _ | ⟨c5, _ | ⟨c6, l7⟩⟩⟩⟩⟩⟩
  · exact absurd h (by simp [uciMatch_nil])
  · exact absurd h (by simp [uciMatch_one])
  · exact absurd h (by simp [uciMatch_two])
  · exact absurd h (by simp [uciMatch_three])
  · rw [uciMatch_four] at h
    by_cases hok : (isFileLower c1 && isRankCh c2 && isFileLower c3 && isRankCh c4) = true
    · rw [if_pos hok] at h
      injection h with h1
      injection h1 with ha hb
      subst ha; subst hb
      simp only [Bool.and_eq_true] at hok
      simp [canonSquare, hok.1.1.1, hok.1.1.2, hok.1.2, hok.2]
    · rw [if_neg hok] at h
      exact absurd h (by simp)
  · rw [uciMatch_five] at h
    by_cases hok : (isFileLower c1 && isRankCh c2 && isFileLower c3 && isRankCh c4 &&
        isPromoCh c5) = true
    · rw [if_pos hok] at h
      injection h with h1
      injection h1 with ha hb
      subst ha; subst hb
      simp only [Bool.and_eq_true] at hok
      simp [canonSquare, hok.1.1.1.1, hok.1.1.1.2, hok.1.1.2, hok.1.2]
    · rw [if_neg hok] at h
      exact absurd h (by simp)
  · exact absurd h (by simp [uciMatch_long])

lemma moveTokens_good (t a b : List Char) (h : moveTokens t = some (.move a b)) :
    goodSquare a = true ∧ goodSquare b = true := by
  unfold moveTokens at h
  split at h
  · exact absurd h (by simp)
  · split at h
    · split at h
      · rename_i ha hb
        injection h with h1
        injection h1 with h2 h3
        subst h2; subst h3
        exact ⟨normalizeSquare_good _ _ ha, normalizeSquare_good _ _ hb⟩
      · exact absurd h (by simp)
    · exact absurd h (by simp)

/-! ## Allowed characters and keyword-test refutation -/

lemma mem_spaces (ch : Char) (n : Nat) (h : ch ∈ spaces n) : ch = ' ' :=
  List.eq_of_mem_replicate (by simpa [spaces] using h)

lemma mem_promoPart (ch : Char) (p : Fin 5) (n5 : Nat) (h : ch ∈ promoPart p n5) :
    ch = ' ' ∨ ch ∈ promoOf p := by
  unfold promoPart at h
  split at h
  · exact absurd h (by simp)
  · rcases List.mem_append.mp h with h | h
    · exact Or.inl (mem_spaces ch n5 h)
    · exact Or.inr h

lemma allowedC1_fileChar : ∀ i : Fin 8, allowedC1 (fileChar i) = true := by decide

lemma allowedC1_rankChar : ∀ i : Fin 8, allowedC1 (rankChar i) = true := by decide

lemma spaces_allowed (n : Nat) : ∀ ch ∈ spaces n, allowedC1 ch = true := by
  intro ch h
  have h2 := mem_spaces ch n h
  subst h2
  decide

lemma connOf_allowed (c : Fin 4) : ∀ ch ∈ connOf c, allowedC1 ch = true := by
  fin_cases c <;> decide

lemma promoOf_allowed (p : Fin 5) : ∀ ch ∈ promoOf p, allowedC1 ch = true := by
  fin_cases p <;> decide

lemma promoOf_ne_t : ∀ p : Fin 5, ∀ ch ∈ promoOf p, ch ≠ 't' := by decide

lemma promoPart_allowed (p : Fin 5) (n5 : Nat) :
    ∀ ch ∈ promoPart p n5, allowedC1 ch = true := by
  intro ch h
  rcases mem_promoPart ch p n5 h with h2 | h2
  · subst h2; decide
  · exact promoOf_allowed p ch h2

lemma c1Text_allowed (f1 r1 f2 r2 : Fin 8) (c : Fin 4) (n1 n2 n3 n4 n5 : Nat)
    (p : Fin 5) :
    ∀ ch ∈ c1Text f1 r1 f2 r2 c n1 n2 n3 n4 n5 p, allowedC1 ch = true := by
  simp only [c1Text, List.forall_mem_cons, List.forall_mem_append]
  refine ⟨?_, ?_, ?_, ⟨⟨?_, ?_⟩, ?_⟩, ?_, ?_, ?_, ?_⟩
  exacts [allowedC1_fileChar f1, spaces_allowed n1, allowedC1_rankChar r1,
    spaces_allowed n2, connOf_allowed c, spaces_allowed n3, allowedC1_fileChar f2,
    spaces_allowed n4, allowedC1_rankChar r2, promoPart_allowed p n5]

lemma testNewGame_char (t : List Char) (h : testNewGame t = true) :
    'm' ∈ lowerL t ∨ 's' ∈ lowerL t := by
  simp only [testNewGame, Bool.or_eq_true] at h
  rcases h with h | h
  · have h' : anySuffix (wsflexAt ['n', 'e', 'w'] ['g', 'a', 'm', 'e'])
        (lowerL t) = true := h
    exact Or.inl ((anySuffix_wsflex_mem _ _ _ h').2 'm' (by decide))
  · exact Or.inr (containsPat_mem _ _ h 's' (by decide))

lemma testUndo_char (t : List Char) (h : testUndo t = true) :
    'u' ∈ lowerL t ∨ 'k' ∈ lowerL t := by
  simp only [testUndo, Bool.or_eq_true] at h
  rcases h with h | h
  · exact Or.inl (containsPat_mem _ _ h 'u' (by decide))
  · have h' : anySuffix (wsflexAt ['t', 'a', 'k', 'e'] ['b', 'a', 'c', 'k'])
        (lowerL t) = true := h
    exact Or.inr ((anySuffix_wsflex_mem _ _ _ h').2 'k' (by decide))

lemma testCastle_char (t : List Char) (h : testCastle t = true) :
    's' ∈ lowerL t := by
  simp only [testCastle, Bool.or_eq_true] at h
  rcases h with h | h
  · exact containsPat_mem _ _ h 's' (by decide)
  · exact containsPat_mem _ _ h 's' (by decide)

/-! ## Move-search plumbing -/

lemma matchMoveAt_none_of_tok (l : List Char) (h : matchSquareTok l = none) :
    matchMoveAt l = none := by
  simp [matchMoveAt, h]

lemma findMove_cons_of_some (x : Char) (rest : List Char)
    (m : List Char × List Char) (h : matchMoveAt (x :: rest) = some m) :
    findMove (x :: rest) = some m := by
  simp [findMove, h]

lemma findMove_cons_of_none (x : Char) (rest : List Char)
    (h : matchMoveAt (x :: rest) = none) :
    findMove (x :: rest) = findMove rest := by
  simp [findMove, h]

lemma findMove_append_none (a b : List Char)
    (h : ∀ s, s <:+ a → s ≠ [] → matchMoveAt (s ++ b) = none) :
    findMove (a ++ b) = findMove b := by
  induction a with
  | nil => rfl
  | cons c rest ih =>
    have hm : matchMoveAt (c :: (rest ++ b)) = none :=
      h (c :: rest) (List.suffix_refl _) (by simp)
    rw [List.cons_append, findMove_cons_of_none _ _ hm]
    exact ih (fun s hs hne => h s (hs.trans (List.suffix_cons c rest)) hne)

/-! ## The cleaned text of a C1 instance -/

lemma lowerL_cons (x : Char) (l : List Char) :
    lowerL (x :: l) = toLowerCh x :: lowerL l := rfl

lemma lowerL_connOf (c : Fin 4) : lowerL (connOf c) = connOf c := by
  fin_cases c <;> rfl

lemma lowerL_promoOf (p : Fin 5) : lowerL (promoOf p) = promoOf p := by
  fin_cases p <;> rfl

lemma lowerL_promoPart (p : Fin 5) (n5 : Nat) :
    lowerL (promoPart p n5) = promoPart p n5 := by
  unfold promoPart
  split
  · rfl
  · rw [lowerL_append, lowerL_spaces, lowerL_promoOf]

lemma lowerL_c1Text (f1 r1 f2 r2 : Fin 8) (c : Fin 4) (n1 n2 n3 n4 n5 : Nat)
    (p : Fin 5) :
    lowerL (c1Text f1 r1 f2 r2 c n1 n2 n3 n4 n5 p) =
      c1Text f1 r1 f2 r2 c n1 n2 n3 n4 n5 p := by
  simp only [c1Text, lowerL_cons, lowerL_append, lowerL_spaces, lowerL_connOf,
    lowerL_promoPart, toLowerCh_fileChar, toLowerCh_rankChar]

lemma promoOf_single (p : Fin 5) (hp : p.1 ≠ 0) :
    ∃ x, promoOf p = [x] ∧ isWsCh x = false ∧ isPromoCh x = true := by
  fin_cases p
  · exact absurd rfl hp
  · exact ⟨'q', rfl, rfl, rfl⟩
  · exact ⟨'r', rfl, rfl, rfl⟩
  · exact ⟨'b', rfl, rfl, rfl⟩
  · exact ⟨'n', rfl, rfl, rfl⟩

lemma trimL_c1Text (f1 r1 f2 r2 : Fin 8) (c : Fin 4) (n1 n2 n3 n4 n5 : Nat)
    (p : Fin 5) :
    trimL (c1Text f1 r1 f2 r2 c n1 n2 n3 n4 n5 p) =
      c1Text f1 r1 f2 r2 c n1 n2 n3 n4 n5 p := by
  apply trimL_eq_self
  · intro ch hch
    rw [show (c1Text f1 r1 f2 r2 c n1 n2 n3 n4 n5 p).head? = some (fileChar f1)
      from rfl] at hch
    injection hch with h
    rw [← h]
    exact isWsCh_fileChar f1
  · intro ch hch
    by_cases hp : p.1 = 0
    · have hE : c1Text f1 r1 f2 r2 c n1 n2 n3 n4 n5 p =
          (fileChar f1 :: (spaces n1 ++ rankChar r1 ::
            (spaces n2 ++ connOf c ++ spaces n3 ++ fileChar f2 :: spaces n4))) ++
            rankChar r2 :: [] := by
        simp [c1Text, promoPart, hp]
      rw [hE, List.getLast?_append_cons] at hch
      rw [show (rankChar r2 :: ([] : List Char)).getLast? = some (rankChar r2)
        from rfl] at hch
      injection hch with h
      rw [← h]
      exact isWsCh_rankChar r2
    · obtain ⟨x, hx, hxw, hxp⟩ := promoOf_single p hp
      have hE : c1Text f1 r1 f2 r2 c n1 n2 n3 n4 n5 p =
          (fileChar f1 :: (spaces n1 ++ rankChar r1 ::
            (spaces n2 ++ connOf c ++ spaces n3 ++ fileChar f2 ::
              (spaces n4 ++ rankChar r2 :: spaces n5)))) ++ x :: [] := by
        simp [c1Text, promoPart, hp, hx]
      rw [hE, List.getLast?_append_cons] at hch
      rw [show (x :: ([] : List Char)).getLast? = some x from rfl] at hch
      injection hch with h
      rw [← h]
      exact hxw

lemma replaceConn_connOf (c : Fin 4) (X : List Char) (hX : ∀ ch ∈ X, ch ≠ 't') :
    replaceConn (connOf c ++ X) = connResidue c ++ X := by
  fin_cases c
  · show replaceConn ([] ++ X) = [] ++ X
    simp only [List.nil_append]
    exact replaceConn_no_t X hX
  · show replaceConn (['t', 'o'] ++ X) = [] ++ X
    rw [show ['t', 'o'] ++ X = 't' :: 'o' :: X from rfl, replaceConn_to,
      List.nil_append]
    exact replaceConn_no_t X hX
  · show replaceConn (['t', 'w', 'o'] ++ X) = [] ++ X
    rw [show ['t', 'w', 'o'] ++ X = 't' :: 'w' :: 'o' :: X from rfl, replaceConn_two,
      List.nil_append]
    exact replaceConn_no_t X hX
  · show replaceConn (['t', 'o', 'o'] ++ X) = ['o'] ++ X
    rw [show ['t', 'o', 'o'] ++ X = 't' :: 'o' :: ('o' :: X) from rfl, replaceConn_to,
      replaceConn_cons_ne_t 'o' X (by decide), replaceConn_no_t X hX]
    rfl

lemma stripWs_connResidue (c : Fin 4) : stripWs (connResidue c) = connResidue c := by
  unfold connResidue
  split <;> rfl

lemma stripWs_promoPart (p : Fin 5) (n5 : Nat) :
    stripWs (promoPart p n5) = promoOf p := by
  unfold promoPart
  split
  · rename_i hp
    fin_cases p
    · rfl
    all_goals simp at hp
  · rw [stripWs_append, stripWs_spaces, List.nil_append]
    obtain ⟨x, hx, hxw, hxp⟩ := promoOf_single p (by assumption)
    rw [hx, stripWs_cons_not_ws x _ hxw]
    rfl

lemma clean_c1Text (f1 r1 f2 r2 : Fin 8) (c : Fin 4) (n1 n2 n3 n4 n5 : Nat)
    (p : Fin 5) :
    stripWs (replaceConn (lowerL (trimL (c1Text f1 r1 f2 r2 c n1 n2 n3 n4 n5 p)))) =
      fileChar f1 :: rankChar r1 ::
        (connResidue c ++ fileChar f2 :: rankChar r2 :: promoOf p) := by
  rw [trimL_c1Text, lowerL_c1Text]
  have hA : ∀ ch ∈ fileChar f1 :: (spaces n1 ++ rankChar r1 :: spaces n2),
      ch ≠ 't' := by
    intro ch hch
    rcases List.mem_cons.mp hch with h | hch
    · subst h; exact fileChar_ne_t f1
    rcases List.mem_append.mp hch with h | hch
    · rw [mem_spaces ch _ h]; decide
    rcases List.mem_cons.mp hch with h | h
    · subst h; exact rankChar_ne_t r1
    · rw [mem_spaces ch _ h]; decide
  have hREST : ∀ ch ∈ spaces n3 ++ fileChar f2 ::
      (spaces n4 ++ rankChar r2 :: promoPart p n5), ch ≠ 't' := by
    intro ch hch
    rcases List.mem_append.mp hch with h | hch
    · rw [mem_spaces ch _ h]; decide
    rcases List.mem_cons.mp hch with h | hch
    · subst h; exact fileChar_ne_t f2
    rcases List.mem_append.mp hch with h | hch
    · rw [mem_spaces ch _ h]; decide
    rcases List.mem_cons.mp hch with h | h
    · subst h; exact rankChar_ne_t r2
    · rcases mem_promoPart ch p n5 h with h2 | h2
      · subst h2; decide
      · exact promoOf_ne_t p ch h2
  have hE : c1Text f1 r1 f2 r2 c n1 n2 n3 n4 n5 p =
      (fileChar f1 :: (spaces n1 ++ rankChar r1 :: spaces n2)) ++
        (connOf c ++ (spaces n3 ++ fileChar f2 ::
          (spaces n4 ++ rankChar r2 :: promoPart p n5))) := by
    simp [c1Text]
  rw [hE, replaceConn_append_no_t _ _ hA]
  have hstripA : stripWs (fileChar f1 :: (spaces n1 ++ rankChar r1 :: spaces n2)) =
      [fileChar f1, rankChar r1] := by
    rw [stripWs_cons_not_ws _ _ (isWsCh_fileChar f1), stripWs_append, stripWs_spaces,
      stripWs_cons_not_ws _ _ (isWsCh_rankChar r1), stripWs_spaces]
    rfl
  have hstripREST : stripWs (spaces n3 ++ fileChar f2 ::
      (spaces n4 ++ rankChar r2 :: promoPart p n5)) =
      fileChar f2 :: rankChar r2 :: promoOf p := by
    rw [stripWs_append, stripWs_spaces, stripWs_cons_not_ws _ _ (isWsCh_fileChar f2),
      stripWs_append, stripWs_spaces, stripWs_cons_not_ws _ _ (isWsCh_rankChar r2),
      stripWs_promoPart]
    rfl
  rw [stripWs_append, hstripA, replaceConn_connOf c _ hREST, stripWs_append,
    stripWs_connResidue, hstripREST]
  simp

/-! ## Strategy-4 computation on C1 instances -/

lemma firstSquareOf_cons_none (r : List Char) (rs : List (List Char))
    (h : matchSquareTok (r.dropWhile isWsCh) = none) :
    firstSquareOf (r :: rs) = firstSquareOf rs := by
  simp [firstSquareOf, h]

lemma firstSquareOf_cons_some (r : List Char) (rs : List (List Char))
    (g3 rest : List Char) (h : matchSquareTok (r.dropWhile isWsCh) = some (g3, rest)) :
    firstSquareOf (r :: rs) = some g3 := by
  simp [firstSquareOf, h]

lemma matchMoveAt_some (l g1 rest g3 : List Char)
    (h1 : matchSquareTok l = some (g1, rest))
    (h2 : firstSquareOf (connCandidates (rest.dropWhile isWsCh)) = some g3) :
    matchMoveAt l = some (g1, g3) := by
  simp [matchMoveAt, h1, h2]

lemma normalizeSquare_sq (f r : Fin 8) (n : Nat) :
    normalizeSquare (fileChar f :: (spaces n ++ [rankChar r])) = some (sqOf f r) := by
  rw [normalizeSquare_file_spaces_rank _ _ _ (isFileCh_fileChar f)
    (isRankCh_rankChar r) (isWsCh_fileChar f) (isWsCh_rankChar r),
    toLowerCh_fileChar, toLowerCh_rankChar]
  rfl

lemma connOf_too (c : Fin 4) (hc : c.1 = 3) : connOf c = ['t', 'o', 'o'] := by
  fin_cases c
  · simp at hc
  · simp at hc
  · simp at hc
  · rfl

lemma connResidue_too (c : Fin 4) (hc : c.1 = 3) : connResidue c = ['o'] := by
  unfold connResidue
  rw [if_pos hc]

lemma connResidue_not_too (c : Fin 4) (hc : c.1 ≠ 3) : connResidue c = [] := by
  unfold connResidue
  rw [if_neg hc]

lemma promoOf_zero (p : Fin 5) (hp : p.1 = 0) : promoOf p = [] := by
  fin_cases p
  · rfl
  all_goals simp at hp

/-- The simple-move regex on a C1 `too` instance succeeds at position 0,
backtracking from the `to` alternative (blocked by the residual `o`) to
the `too` alternative. -/
lemma findMove_c1Text_too (f1 r1 f2 r2 : Fin 8) (n1 n2 n3 n4 n5 : Nat) (p : Fin 5) :
    findMove (fileChar f1 :: (spaces n1 ++ rankChar r1 ::
      (spaces n2 ++ ['t', 'o', 'o'] ++ spaces n3 ++ fileChar f2 ::
        (spaces n4 ++ rankChar r2 :: promoPart p n5)))) =
      some (fileChar f1 :: (spaces n1 ++ [rankChar r1]),
            fileChar f2 :: (spaces n4 ++ [rankChar r2])) := by
  have hW : (spaces n2 ++ ['t', 'o', 'o'] ++ spaces n3 ++ fileChar f2 ::
      (spaces n4 ++ rankChar r2 :: promoPart p n5)) =
      spaces n2 ++ ('t' :: 'o' :: 'o' :: (spaces n3 ++ fileChar f2 ::
        (spaces n4 ++ rankChar r2 :: promoPart p n5))) := by
    simp
  apply findMove_cons_of_some
  apply matchMoveAt_some _ _ _ _
    (by
      rw [hW]
      exact matchSquareTok_spaces (fileChar f1) n1 (rankChar r1) _
        (isFileCh_fileChar f1) (isRankCh_rankChar r1) (isWsCh_rankChar r1))
  have hdw : (spaces n2 ++ ('t' :: 'o' :: 'o' :: (spaces n3 ++ fileChar f2 ::
      (spaces n4 ++ rankChar r2 :: promoPart p n5)))).dropWhile isWsCh =
      't' :: 'o' :: 'o' :: (spaces n3 ++ fileChar f2 ::
        (spaces n4 ++ rankChar r2 :: promoPart p n5)) := by
    rw [dropWhile_spaces_append, dropWhile_cons_not_ws _ _ (by decide)]
  rw [hdw]
  have hcc : connCandidates ('t' :: 'o' :: 'o' :: (spaces n3 ++ fileChar f2 ::
      (spaces n4 ++ rankChar r2 :: promoPart p n5))) =
      ['o' :: (spaces n3 ++ fileChar f2 ::
          (spaces n4 ++ rankChar r2 :: promoPart p n5)),
        spaces n3 ++ fileChar f2 :: (spaces n4 ++ rankChar r2 :: promoPart p n5),
        't' :: 'o' :: 'o' :: (spaces n3 ++ fileChar f2 ::
          (spaces n4 ++ rankChar r2 :: promoPart p n5))] := rfl
  rw [hcc]
  rw [firstSquareOf_cons_none _ _
    (by
      rw [dropWhile_cons_not_ws _ _ (by decide)]
      exact matchSquareTok_cons_not_file 'o' _ (by decide))]
  exact firstSquareOf_cons_some _ _ _ _
    (by
      rw [dropWhile_spaces_append, dropWhile_cons_not_ws _ _ (isWsCh_fileChar f2)]
      exact matchSquareTok_spaces (fileChar f2) n4 (rankChar r2) _
        (isFileCh_fileChar f2) (isRankCh_rankChar r2) (isWsCh_rankChar r2))

/-! ## Facts about C9 instances -/

lemma toLowerCh_space : toLowerCh ' ' = ' ' := rfl

lemma toLowerCh_t : toLowerCh 't' = 't' := rfl

lemma toLowerCh_o : toLowerCh 'o' = 'o' := rfl

lemma dropWhile_space_cons (l : List Char) :
    (' ' :: l).dropWhile isWsCh = l.dropWhile isWsCh := by
  simp [List.dropWhile_cons, isWsCh_space]

lemma stripWs_space_cons (l : List Char) : stripWs (' ' :: l) = stripWs l := by
  simp [stripWs, List.filter_cons, isWsCh_space]

lemma beq_a_rankChar : ∀ i : Fin 8, ('a' == rankChar i) = false := by decide

lemma isDigitCh_of_isRankCh (c : Char) (h : isRankCh c = true) :
    isDigitCh c = true := by
  have hm := mem_of_isRankCh c h
  fin_cases hm <;> rfl

lemma lowerL_ws_free (w : List Char) (hws : ∀ ch ∈ w, isWsCh ch = false) :
    ∀ ch ∈ lowerL w, isWsCh ch = false := by
  intro ch hch
  obtain ⟨c0, hc0, rfl⟩ := List.mem_map.mp hch
  rw [isWsCh_toLowerCh]
  exact hws c0 hc0

lemma c9Tail_eq (f1 r1 f2 r2 : Fin 8) :
    c9Tail f1 r1 f2 r2 =
      ' ' :: fileChar f1 :: rankChar r1 :: ' ' :: 't' :: 'o' :: ' ' ::
        fileChar f2 :: rankChar r2 :: [] := by
  simp [c9Tail, sqOf]

lemma c9Tail_allowed (f1 r1 f2 r2 : Fin 8) :
    ∀ ch ∈ c9Tail f1 r1 f2 r2, allowedC1 ch = true := by
  rw [c9Tail_eq]
  simp only [List.forall_mem_cons]
  exact ⟨by decide, allowedC1_fileChar f1, allowedC1_rankChar r1, by decide,
    by decide, by decide, by decide, allowedC1_fileChar f2, allowedC1_rankChar r2,
    by simp⟩

lemma lowerL_c9Tail (f1 r1 f2 r2 : Fin 8) :
    lowerL (c9Tail f1 r1 f2 r2) = c9Tail f1 r1 f2 r2 := by
  rw [c9Tail_eq]
  simp only [lowerL_cons, toLowerCh_space, toLowerCh_t, toLowerCh_o,
    toLowerCh_fileChar, toLowerCh_rankChar]
  rfl

lemma replaceConn_c9Tail (f1 r1 f2 r2 : Fin 8) :
    replaceConn (c9Tail f1 r1 f2 r2) =
      ' ' :: fileChar f1 :: rankChar r1 :: ' ' :: ' ' ::
        fileChar f2 :: rankChar r2 :: [] := by
  rw [c9Tail_eq,
    replaceConn_cons_ne_t ' ' _ (by decide),
    replaceConn_cons_ne_t _ _ (fileChar_ne_t f1),
    replaceConn_cons_ne_t _ _ (rankChar_ne_t r1),
    replaceConn_cons_ne_t ' ' _ (by decide),
    replaceConn_to,
    replaceConn_cons_ne_t ' ' _ (by decide),
    replaceConn_cons_ne_t _ _ (fileChar_ne_t f2),
    replaceConn_cons_ne_t _ _ (rankChar_ne_t r2)]
  rfl

lemma clean_c9 (w : List Char) (f1 r1 f2 r2 : Fin 8) :
    stripWs (replaceConn (lowerL (w ++ c9Tail f1 r1 f2 r2))) =
      stripWs (replaceConn (lowerL w)) ++
        [fileChar f1, rankChar r1, fileChar f2, rankChar r2] := by
  rw [lowerL_append, lowerL_c9Tail,
    replaceConn_append_sp (c9Tail f1 r1 f2 r2) (by rw [c9Tail_eq]; rfl) (lowerL w),
    replaceConn_c9Tail, stripWs_append]
  congr 1
  rw [stripWs_space_cons, stripWs_cons_not_ws _ _ (isWsCh_fileChar f1),
    stripWs_cons_not_ws _ _ (isWsCh_rankChar r1), stripWs_space_cons,
    stripWs_space_cons, stripWs_cons_not_ws _ _ (isWsCh_fileChar f2),
    stripWs_cons_not_ws _ _ (isWsCh_rankChar r2)]
  rfl

lemma trimL_c9 (w : List Char) (f1 r1 f2 r2 : Fin 8) (hne : w ≠ [])
    (hws : ∀ ch ∈ w, isWsCh ch = false) :
    trimL (w ++ c9Tail f1 r1 f2 r2) = w ++ c9Tail f1 r1 f2 r2 := by
  apply trimL_eq_self
  · intro ch hch
    rcases w with _ | ⟨c, w'⟩
    · exact absurd rfl hne
    · rw [show ((c :: w') ++ c9Tail f1 r1 f2 r2).head? = some c from rfl] at hch
      injection hch with h
      rw [← h]
      exact hws c (List.mem_cons_self _ _)
  · intro ch hch
    have hE : w ++ c9Tail f1 r1 f2 r2 =
        (w ++ (' ' :: fileChar f1 :: rankChar r1 :: ' ' :: 't' :: 'o' :: ' ' ::
          fileChar f2 :: [])) ++ rankChar r2 :: [] := by
      rw [c9Tail_eq]
      simp
    rw [hE, List.getLast?_append_cons] at hch
    rw [show (rankChar r2 :: ([] : List Char)).getLast? = some (rankChar r2)
      from rfl] at hch
    injection hch with h
    rw [← h]
    exact isWsCh_rankChar r2

lemma testNewGame_c9 (w : List Char) (f1 r1 f2 r2 : Fin 8)
    (hws : ∀ ch ∈ w, isWsCh ch = false) (hng : testNewGame w = false) :
    testNewGame (w ++ c9Tail f1 r1 f2 r2) = false := by
  rw [testNewGame] at hng
  obtain ⟨hng1, hng2⟩ := Bool.or_eq_false_iff.mp hng
  rw [testNewGame, lowerL_append, lowerL_c9Tail]
  refine Bool.or_eq_false_iff.mpr ⟨?_, ?_⟩
  · have hnb : anySuffix (wsflexAt ['n', 'e', 'w'] ['g', 'a', 'm', 'e'])
        (c9Tail f1 r1 f2 r2) = false := by
      cases hval : anySuffix (wsflexAt ['n', 'e', 'w'] ['g', 'a', 'm', 'e'])
          (c9Tail f1 r1 f2 r2)
      · rfl
      · exfalso
        have hm := (anySuffix_wsflex_mem _ _ _ hval).2 'm' (by decide)
        exact absurd (c9Tail_allowed f1 r1 f2 r2 'm' hm) (by decide)
    have hdrop : hasPrefixL ['g', 'a', 'm', 'e']
        ((c9Tail f1 r1 f2 r2).dropWhile isWsCh) = false := by
      rw [c9Tail_eq, dropWhile_space_cons,
        dropWhile_cons_not_ws _ _ (isWsCh_fileChar f1)]
      simp [hasPrefixL, beq_a_rankChar r1]
    exact wsflex_append_false _ _ _ _ (by decide) (by decide)
      (lowerL_ws_free w hws) hng1 hnb ⟨_, by rw [c9Tail_eq]⟩ hdrop
  · have hpb : containsPat ['r', 'e', 's', 'e', 't'] (c9Tail f1 r1 f2 r2) = false := by
      cases hval : containsPat ['r', 'e', 's', 'e', 't'] (c9Tail f1 r1 f2 r2)
      · rfl
      · exfalso
        have hm := containsPat_mem _ _ hval 's' (by decide)
        exact absurd (c9Tail_allowed f1 r1 f2 r2 's' hm) (by decide)
    exact containsPat_append_false _ _ _ ' ' _ (by rw [c9Tail_eq]) (by decide)
      hng2 hpb

lemma testUndo_c9 (w : List Char) (f1 r1 f2 r2 : Fin 8)
    (hws : ∀ ch ∈ w, isWsCh ch = false) (hun : testUndo w = false) :
    testUndo (w ++ c9Tail f1 r1 f2 r2) = false := by
  rw [testUndo] at hun
  obtain ⟨hun1, hun2⟩ := Bool.or_eq_false_iff.mp hun
  rw [testUndo, lowerL_append, lowerL_c9Tail]
  refine Bool.or_eq_false_iff.mpr ⟨?_, ?_⟩
  · have hpb : containsPat ['u', 'n', 'd', 'o'] (c9Tail f1 r1 f2 r2) = false := by
      cases hval : containsPat ['u', 'n', 'd', 'o'] (c9Tail f1 r1 f2 r2)
      · rfl
      · exfalso
        have hm := containsPat_mem _ _ hval 'u' (by decide)
        exact absurd (c9Tail_allowed f1 r1 f2 r2 'u' hm) (by decide)
    exact containsPat_append_false _ _ _ ' ' _ (by rw [c9Tail_eq]) (by decide)
      hun1 hpb
  · have hnb : anySuffix (wsflexAt ['t', 'a', 'k', 'e'] ['b', 'a', 'c', 'k'])
        (c9Tail f1 r1 f2 r2) = false := by
      cases hval : anySuffix (wsflexAt ['t', 'a', 'k', 'e'] ['b', 'a', 'c', 'k'])
          (c9Tail f1 r1 f2 r2)
      · rfl
      · exfalso
        have hm := (anySuffix_wsflex_mem _ _ _ hval).2 'k' (by decide)
        exact absurd (c9Tail_allowed f1 r1 f2 r2 'k' hm) (by decide)
    have hdrop : hasPrefixL ['b', 'a', 'c', 'k']
        ((c9Tail f1 r1 f2 r2).dropWhile isWsCh) = false := by
      rw [c9Tail_eq, dropWhile_space_cons,
        dropWhile_cons_not_ws _ _ (isWsCh_fileChar f1)]
      simp [hasPrefixL, beq_a_rankChar r1]
    exact wsflex_append_false _ _ _ _ (by decide) (by decide)
      (lowerL_ws_free w hws) hun2 hnb ⟨_, by rw [c9Tail_eq]⟩ hdrop

lemma testCastle_c9 (w : List Char) (f1 r1 f2 r2 : Fin 8)
    (hca : testCastle w = false) :
    testCastle (w ++ c9Tail f1 r1 f2 r2) = false := by
  rw [testCastle] at hca
  obtain ⟨hca1, hca2⟩ := Bool.or_eq_false_iff.mp hca
  rw [testCastle, lowerL_append, lowerL_c9Tail]
  refine Bool.or_eq_false_iff.mpr ⟨?_, ?_⟩
  · have hpb : containsPat ['c', 'a', 's', 't', 'l', 'e'] (c9Tail f1 r1 f2 r2) =
        false := by
      cases hval : containsPat ['c', 'a', 's', 't', 'l', 'e'] (c9Tail f1 r1 f2 r2)
      · rfl
      · exfalso
        have hm := containsPat_mem _ _ hval 's' (by decide)
        exact absurd (c9Tail_allowed f1 r1 f2 r2 's' hm) (by decide)
    exact containsPat_append_false _ _ _ ' ' _ (by rw [c9Tail_eq]) (by decide)
      hca1 hpb
  · have hpb : containsPat ['c', 'a', 's', 't', 'l', 'i', 'n', 'g']
        (c9Tail f1 r1 f2 r2) = false := by
      cases hval : containsPat ['c', 'a', 's', 't', 'l', 'i', 'n', 'g']
          (c9Tail f1 r1 f2 r2)
      · rfl
      · exfalso
        have hm := containsPat_mem _ _ hval 's' (by decide)
        exact absurd (c9Tail_allowed f1 r1 f2 r2 's' hm) (by decide)
    exact containsPat_append_false _ _ _ ' ' _ (by rw [c9Tail_eq]) (by decide)
      hca2 hpb

lemma findMove_c9 (w : List Char) (f1 r1 f2 r2 : Fin 8)
    (hws : ∀ ch ∈ w, isWsCh ch = false)
    (hdg : ∀ ch ∈ w, isDigitCh ch = false) :
    findMove (w ++ c9Tail f1 r1 f2 r2) =
      some (fileChar f1 :: (spaces 0 ++ [rankChar r1]),
            fileChar f2 :: (spaces 0 ++ [rankChar r2])) := by
  have hstep : findMove (w ++ c9Tail f1 r1 f2 r2) = findMove (c9Tail f1 r1 f2 r2) := by
    apply findMove_append_none
    intro s hs hne
    rcases s with _ | ⟨c, s'⟩
    · exact absurd rfl hne
    rw [List.cons_append]
    apply matchMoveAt_none_of_tok
    apply matchSquareTok_none_of_not_rank
    intro d hd
    rcases s' with _ | ⟨z, s''⟩
    · rw [List.nil_append, c9Tail_eq, dropWhile_space_cons,
        dropWhile_cons_not_ws _ _ (isWsCh_fileChar f1)] at hd
      rw [show (fileChar f1 :: rankChar r1 :: ' ' :: 't' :: 'o' :: ' ' ::
          fileChar f2 :: rankChar r2 :: []).head? = some (fileChar f1)
        from rfl] at hd
      injection hd with h
      rw [← h]
      exact isRankCh_fileChar f1
    · have hz : isWsCh z = false := by
        apply hws
        apply hs.sublist.mem
        simp
      rw [List.cons_append, dropWhile_cons_not_ws _ _ hz] at hd
      rw [show (z :: (s'' ++ c9Tail f1 r1 f2 r2)).head? = some z from rfl] at hd
      injection hd with h
      rw [← h]
      cases hval : isRankCh z
      · rfl
      · exfalso
        have hdig := isDigitCh_of_isRankCh z hval
        have := hdg z (hs.sublist.mem (by simp))
        rw [this] at hdig
        exact absurd hdig (by simp)
  rw [hstep, c9Tail_eq]
  rw [findMove_cons_of_none _ _
    (matchMoveAt_none_of_tok _ (matchSquareTok_cons_not_file ' ' _ (by decide)))]
  apply findMove_cons_of_some
  apply matchMoveAt_some _ _ _ _
    (by
      rw [show rankChar r1 :: ' ' :: 't' :: 'o' :: ' ' :: fileChar f2 ::
          rankChar r2 :: [] =
          spaces 0 ++ rankChar r1 :: (' ' :: 't' :: 'o' :: ' ' :: fileChar f2 ::
            rankChar r2 :: []) from rfl]
      exact matchSquareTok_spaces (fileChar f1) 0 (rankChar r1) _
        (isFileCh_fileChar f1) (isRankCh_rankChar r1) (isWsCh_rankChar r1))
  rw [dropWhile_space_cons, dropWhile_cons_not_ws 't' _ (by decide)]
  rw [show connCandidates ('t' :: 'o' :: ' ' :: fileChar f2 :: rankChar r2 :: []) =
      [' ' :: fileChar f2 :: rankChar r2 :: [],
       't' :: 'o' :: ' ' :: fileChar f2 :: rankChar r2 :: []] from rfl]
  apply firstSquareOf_cons_some _ _ _ []
  rw [dropWhile_space_cons, dropWhile_cons_not_ws _ _ (isWsCh_fileChar f2)]
  rw [show rankChar r2 :: ([] : List Char) =
      spaces 0 ++ rankChar r2 :: [] from rfl]
  exact matchSquareTok_spaces (fileChar f2) 0 (rankChar r2) []
    (isFileCh_fileChar f2) (isRankCh_rankChar r2) (isWsCh_rankChar r2)

/-! ## Claim theorems -/

/-- C9: the natural square-to-square strategy matches anywhere inside
the transcript: for every word `w` with no digit, no whitespace and no
occurrence of the lifecycle, undo or castling keywords, `parse` applied
to `w ++ " " ++ s1 ++ " to " ++ s2` returns `Move{s1, s2}`, ignoring
`w`. -/
theorem c9_embedded_move (w : List Char) (f1 r1 f2 r2 : Fin 8)
    (hne : w ≠ [])
    (hws : ∀ ch ∈ w, isWsCh ch = false)
    (hdg : ∀ ch ∈ w, isDigitCh ch = false)
    (hng : testNewGame w = false)
    (hun : testUndo w = false)
    (hca : testCastle w = false) :
    parseVoiceCommand (c9Text w f1 r1 f2 r2) =
      some (.move (sqOf f1 r1) (sqOf f2 r2)) := by
  have htrim := trimL_c9 w f1 r1 f2 r2 hne hws
  have hcleaneq := clean_c9 w f1 r1 f2 r2
  have hngT := testNewGame_c9 w f1 r1 f2 r2 hws hng
  have hunT := testUndo_c9 w f1 r1 f2 r2 hws hun
  have hcaT := testCastle_c9 w f1 r1 f2 r2 hca
  have hfind := findMove_c9 w f1 r1 f2 r2 hws hdg
  unfold parseVoiceCommand
  rw [show c9Text w f1 r1 f2 r2 = w ++ c9Tail f1 r1 f2 r2 from rfl, htrim, hcleaneq]
  rcases hA : stripWs (replaceConn (lowerL w)) with _ | ⟨x, _ | ⟨y, A2⟩⟩
  · rw [List.nil_append, uciMatch_four,
      if_pos (by simp [isFileLower_fileChar, isRankCh_rankChar])]
    rfl
  · rw [show [x] ++ [fileChar f1, rankChar r1, fileChar f2, rankChar r2] =
      [x, fileChar f1, rankChar r1, fileChar f2, rankChar r2] from rfl]
    rw [uciMatch_five, if_neg (by simp [isRankCh_fileChar])]
    rw [hngT, hunT, hcaT, hfind]
    simp [normalizeSquare_sq]
  · rw [uciMatch_none_of_long _
      (by simp only [List.length_append, List.length_cons]; omega)]
    rw [hngT, hunT, hcaT, hfind]
    simp [normalizeSquare_sq]

/-- Witness for C9 at the claim's own example: `knight g1 to f3` parses
to `Move{g1, f3}` (`g` is file 7, `f` file 6; ranks 1 and 3). -/
theorem c9_embedded_move_witness :
    parseVoiceCommand (c9Text "knight".data 6 0 5 2) =
      some (.move "g1".data "f3".data) := by
  have h := c9_embedded_move "knight".data 6 0 5 2 (by decide) (by decide)
    (by decide) (by decide) (by decide) (by decide)
  rw [h]
  decide

/-- C10 (counterexample): the canonical-squares invariant fails on the
`"move <tok1> <tok2>"` token strategy, because `rankMap` is a plain
object literal and the lookup `rankMap[rankWord]` also hits the truthy
properties inherited from `Object.prototype`: for the token
`a__proto__`, `rankMap["__proto__"]` is `Object.prototype` itself,
which is truthy and stringifies to `[object Object]`, so
`parse("move a__proto__ b1")` returns a `Move` whose from-square
`a[object Object]` is not a two-character lowercase square. -/
theorem c10_counterexample :
    parseVoiceCommand "move a__proto__ b1".data =
      some (.move "a[object Object]".data "b1".data) ∧
    canonSquare "a[object Object]".data = false := by
  exact ⟨by decide, by decide⟩

/-- C10 (amended): every `Move` command the parser emits carries squares
that are either canonical — two characters, a lowercase file letter in
`a..h` followed by a rank digit in `1..8` — or, reachable only through
the `"move <tok1> <tok2>"` token strategy, a lowercase file letter
followed by the stringification of an `Object.prototype`-inherited
property that `rankMap[rankWord]` hit on the prototype chain. -/
theorem c10_amended_thm (input a b : List Char)
    (h : parseVoiceCommand input = some (.move a b)) :
    goodSquare a = true ∧ goodSquare b = true := by
  unfold parseVoiceCommand at h
  split at h
  · rename_i x y heq
    injection h with h1
    injection h1 with h2 h3
    subst h2; subst h3
    have hc := uciMatch_canon _ _ _ heq
    exact ⟨goodSquare_of_canon _ hc.1, goodSquare_of_canon _ hc.2⟩
  · split at h
    · exact absurd h (by simp)
    split at h
    · exact absurd h (by simp)
    split at h
    · split at h
      · exact absurd h (by simp)
      · exact absurd h (by simp)
    · split at h
      · split at h
        · rename_i ha hb
          injection h with h1
          injection h1 with h2 h3
          subst h2; subst h3
          exact ⟨normalizeSquare_good _ _ ha, normalizeSquare_good _ _ hb⟩
        · exact moveTokens_good _ _ _ h
      · exact moveTokens_good _ _ _ h

/-- Witness for the amended C10 at the counterexample's own input: the
prototype-chain square `a[object Object]` has exactly the
file-letter-plus-prototype-stringification shape, and `b1` is
canonical. -/
theorem c10_amended_witness :
    goodSquare "a[object Object]".data = true ∧ goodSquare "b1".data = true :=
  c10_amended_thm "move a__proto__ b1".data "a[object Object]".data "b1".data
    (by decide)

/-- C1 (counterexample): the claim's quantification lets the connector
words be interspersed anywhere in the compact text `f1r1f2r2`; for
`f1r1f2r2 = e2e4` with `" too "` interspersed between the file `e` and
the rank `2`, `parse` returns `null`, not `Move{e2,e4}` — the global
replace `/to|two|too/g` matches the alternative `to` inside `too` and
leaves a residual `o` that defeats the compact-coordinate strategy, and
no other strategy matches. -/
theorem c1_counterexample : parseVoiceCommand "e too 2 e4".data = none := by decide

/-- C1 (amended): for every pair of squares, every optional connector
word `to`/`two`/`too` placed between the two squares (not inside one),
whitespace interspersed at every junction, and every optional trailing
promotion letter `q`/`r`/`b`/`n`, `parse` returns `Move{from, to}`; the
promotion letter is accepted but does not affect the result.  (`to` and
`two` vanish in the cleaned text and the compact strategy fires; `too`
leaves a residual `o` and the natural square-to-square strategy catches
the move instead.) -/
theorem c1_amended_parse (f1 r1 f2 r2 : Fin 8) (c : Fin 4) (n1 n2 n3 n4 n5 : Nat)
    (p : Fin 5) :
    parseVoiceCommand (c1Text f1 r1 f2 r2 c n1 n2 n3 n4 n5 p) =
      some (.move (sqOf f1 r1) (sqOf f2 r2)) := by
  have hclean := clean_c1Text f1 r1 f2 r2 c n1 n2 n3 n4 n5 p
  by_cases hc : c.1 = 3
  · rw [connResidue_too c hc] at hclean
    have huci : uciMatch (fileChar f1 :: rankChar r1 ::
        (['o'] ++ fileChar f2 :: rankChar r2 :: promoOf p)) = none := by
      by_cases hp : p.1 = 0
      · rw [promoOf_zero p hp]
        rw [show fileChar f1 :: rankChar r1 ::
            (['o'] ++ fileChar f2 :: rankChar r2 :: []) =
            [fileChar f1, rankChar r1, 'o', fileChar f2, rankChar r2] from by simp]
        rw [uciMatch_five, if_neg (by simp [show isFileLower 'o' = false from rfl])]
      · obtain ⟨x, hx, _, _⟩ := promoOf_single p hp
        rw [hx]
        rw [show fileChar f1 :: rankChar r1 ::
            (['o'] ++ fileChar f2 :: rankChar r2 :: [x]) =
            fileChar f1 :: rankChar r1 :: 'o' :: fileChar f2 :: rankChar r2 ::
              x :: [] from by simp]
        exact uciMatch_long _ _ _ _ _ _ _
    have hng : testNewGame (c1Text f1 r1 f2 r2 c n1 n2 n3 n4 n5 p) = false := by
      cases hval : testNewGame (c1Text f1 r1 f2 r2 c n1 n2 n3 n4 n5 p)
      · rfl
      · exfalso
        rcases testNewGame_char _ hval with hm | hm <;> rw [lowerL_c1Text] at hm
        · exact absurd (c1Text_allowed f1 r1 f2 r2 c n1 n2 n3 n4 n5 p 'm' hm)
            (by decide)
        · exact absurd (c1Text_allowed f1 r1 f2 r2 c n1 n2 n3 n4 n5 p 's' hm)
            (by decide)
    have hun : testUndo (c1Text f1 r1 f2 r2 c n1 n2 n3 n4 n5 p) = false := by
      cases hval : testUndo (c1Text f1 r1 f2 r2 c n1 n2 n3 n4 n5 p)
      · rfl
      · exfalso
        rcases testUndo_char _ hval with hm | hm <;> rw [lowerL_c1Text] at hm
        · exact absurd (c1Text_allowed f1 r1 f2 r2 c n1 n2 n3 n4 n5 p 'u' hm)
            (by decide)
        · exact absurd (c1Text_allowed f1 r1 f2 r2 c n1 n2 n3 n4 n5 p 'k' hm)
            (by decide)
    have hcas : testCastle (c1Text f1 r1 f2 r2 c n1 n2 n3 n4 n5 p) = false := by
      cases hval : testCastle (c1Text f1 r1 f2 r2 c n1 n2 n3 n4 n5 p)
      · rfl
      · exfalso
        have hm := testCastle_char _ hval
        rw [lowerL_c1Text] at hm
        exact absurd (c1Text_allowed f1 r1 f2 r2 c n1 n2 n3 n4 n5 p 's' hm)
          (by decide)
    have hshape : c1Text f1 r1 f2 r2 c n1 n2 n3 n4 n5 p =
        fileChar f1 :: (spaces n1 ++ rankChar r1 ::
          (spaces n2 ++ ['t', 'o', 'o'] ++ spaces n3 ++ fileChar f2 ::
            (spaces n4 ++ rankChar r2 :: promoPart p n5))) := by
      rw [c1Text, connOf_too c hc]
    unfold parseVoiceCommand
    rw [hclean, huci, trimL_c1Text, hng, hun, hcas, hshape,
      findMove_c1Text_too f1 r1 f2 r2 n1 n2 n3 n4 n5 p]
    simp [normalizeSquare_sq]
  · rw [connResidue_not_too c hc] at hclean
    have huci : uciMatch (fileChar f1 :: rankChar r1 ::
        ([] ++ fileChar f2 :: rankChar r2 :: promoOf p)) =
        some (sqOf f1 r1, sqOf f2 r2) := by
      by_cases hp : p.1 = 0
      · rw [promoOf_zero p hp]
        rw [show fileChar f1 :: rankChar r1 ::
            ([] ++ fileChar f2 :: rankChar r2 :: []) =
            [fileChar f1, rankChar r1, fileChar f2, rankChar r2] from by simp]
        rw [uciMatch_four,
          if_pos (by simp [isFileLower_fileChar, isRankCh_rankChar])]
        rfl
      · obtain ⟨x, hx, _, hxp⟩ := promoOf_single p hp
        rw [hx]
        rw [show fileChar f1 :: rankChar r1 ::
            ([] ++ fileChar f2 :: rankChar r2 :: [x]) =
            [fileChar f1, rankChar r1, fileChar f2, rankChar r2, x] from by simp]
        rw [uciMatch_five,
          if_pos (by simp [isFileLower_fileChar, isRankCh_rankChar, hxp])]
        rfl
    unfold parseVoiceCommand
    rw [hclean, huci]

/-- Witness for the amended C1 at the concrete instance `e2 too e4`
(connector `too` between the squares, caught by strategy 4). -/
theorem c1_amended_parse_witness :
    parseVoiceCommand "e2 too e4".data = some (.move "e2".data "e4".data) := by
  have h := c1_amended_parse 4 1 4 3 3 0 1 1 0 0 0
  rw [show "e2 too e4".data = c1Text 4 1 4 3 3 0 1 1 0 0 0 from by decide, h]
  decide

/-- C2: starting from a freshly constructed controller on a supported
platform, the event sequence [Start toggle, onStart, onResult("e2 to
e4"), onEnd] (listening intent still true) ends with status `listening`
— the controller re-requests recognizer start on `onEnd` (the final
`recStart` output) — and invokes the move callback exactly once, with
from `e2` and to `e4`. -/
theorem c2_session_run :
    runC initState
        [.construct true, .toggle, .onStart, .onResult "e2 to e4".data, .onEnd] =
      (⟨.listening, true, true, some "e2 to e4".data⟩,
       [.speakOut "Welcome to vocal chess. Start by making your move.".data,
        .recStart,
        .onMoveCb "e2".data "e4".data,
        .speakOut "Move e2 to e4 played.".data,
        .recStart]) ∧
    (runC initState
        [.construct true, .toggle, .onStart, .onResult "e2 to e4".data, .onEnd]).2.filter
        isMoveCb = [.onMoveCb "e2".data "e4".data] := by
  constructor
  · decide
  · decide

/-- C3 (counterexample): `parse("move e two e four")` returns `null`,
not `Move{e2,e4}` — the token strategy normalizes exactly the two tokens
after `move`, here `"e"` and `"two"`, and both fail to normalize as
squares; no other strategy matches a text without digits. -/
theorem c3_counterexample : parseVoiceCommand "move e two e four".data = none := by decide

/-- C3 (amended): in the `move <tok1> <tok2>` form each square must be a
single token (file letter immediately followed by the rank word);
`parse("move etwo efour")` returns `Move{e2,e4}`, and the homophone
`for` is accepted for rank 4: `parse("move etwo efor")` also returns
`Move{e2,e4}`. -/
theorem c3_amended_thm :
    parseVoiceCommand "move etwo efour".data = some (.move "e2".data "e4".data) ∧
    parseVoiceCommand "move etwo efor".data = some (.move "e2".data "e4".data) := by
  constructor
  · decide
  · decide

/-- C4 (counterexample): the lifecycle-keyword strategy has no word
boundaries — `"preset"` contains `"reset"` only as a proper substring of
a larger word and no earlier strategy matches, yet `parse("preset")`
returns `NewGame`, which the claim forbids. -/
theorem c4_counterexample : parseVoiceCommand "preset".data = some .newgame := by decide

/-- C4 (amended): the lifecycle-keyword strategy matches substrings with
no word-boundary requirement: `new game`/`reset` yield `NewGame` and
`undo`/`take back` yield `Undo` even when the keyword occurs only inside
a larger word, as in `preset` and `rundown`. -/
theorem c4_amended_thm :
    parseVoiceCommand "new game".data = some .newgame ∧
    parseVoiceCommand "reset".data = some .newgame ∧
    parseVoiceCommand "undo".data = some .undo ∧
    parseVoiceCommand "take back".data = some .undo ∧
    parseVoiceCommand "preset".data = some .newgame ∧
    parseVoiceCommand "rundown".data = some .undo := by
  refine ⟨?_, ?_, ?_, ?_, ?_, ?_⟩ <;> decide

/-- C5: for an `onError` event received while listening, the `no-speech`
code transitions to `ready` with no spoken notice, and every other code
transitions to `error` with the spoken generic notice. -/
theorem c5_onerror (s : CState) (code : List Char) (h : s.status = .listening) :
    (code = "no-speech".data →
      step s (.onError code) = ({ s with status := .ready }, [])) ∧
    (code ≠ "no-speech".data →
      step s (.onError code) =
        ({ s with status := .error }, [.speakOut "An error occurred.".data])) := by
  refine ⟨fun hc => ?_, fun hc => ?_⟩ <;> simp [step, handleError, hc]

/-- Witness for C5 at a concrete listening state with the codes
`no-speech` and `audio-capture`. -/
theorem c5_onerror_witness :
    step ⟨.listening, true, true, none⟩ (.onError "no-speech".data) =
      (⟨.ready, true, true, none⟩, []) ∧
    step ⟨.listening, true, true, none⟩ (.onError "audio-capture".data) =
      (⟨.error, true, true, none⟩, [.speakOut "An error occurred.".data]) :=
  ⟨(c5_onerror ⟨.listening, true, true, none⟩ _ rfl).1 rfl,
   (c5_onerror ⟨.listening, true, true, none⟩ _ rfl).2 (by decide)⟩

/-- C6: for every transcript the parser rejects, the controller speaks
the "Invalid format." notice, invokes no game-control callback, leaves
`status` and the listening intent unchanged, and updates only the
last-command observable to the raw transcript. -/
theorem c6_parse_failure (s : CState) (tr : List Char)
    (h : parseVoiceCommand tr = none) :
    step s (.onResult tr) =
      ({ s with lastCommand := some tr }, [.speakOut "Invalid format.".data]) := by
  simp [step, handleResult, h]

/-- Witness for C6 on the unparseable transcript `banana`. -/
theorem c6_parse_failure_witness :
    step initState (.onResult "banana".data) =
      ({ initState with lastCommand := some "banana".data },
       [.speakOut "Invalid format.".data]) :=
  c6_parse_failure initState "banana".data (by decide)

/-- C7: a transcript that parses to a `Castle` command (either side)
invokes no game-control callback and produces no spoken confirmation;
`status` and the listening intent are unchanged (only the last-command
observable is updated) — the `castle` variant is not wired to any
callback. -/
theorem c7_castle_unwired (s : CState) (tr : List Char) (side : CastleSide)
    (h : parseVoiceCommand tr = some (.castle side)) :
    step s (.onResult tr) = ({ s with lastCommand := some tr }, []) := by
  simp [step, handleResult, h]

/-- Witness for C7 on the transcripts `castle kingside` and
`castle long`. -/
theorem c7_castle_unwired_witness :
    step initState (.onResult "castle kingside".data) =
      ({ initState with lastCommand := some "castle kingside".data }, []) ∧
    step initState (.onResult "castle long".data) =
      ({ initState with lastCommand := some "castle long".data }, []) :=
  ⟨c7_castle_unwired initState _ .kingside (by decide),
   c7_castle_unwired initState _ .queenside (by decide)⟩

/-- C8: the stop operation (clear intent, request recognizer stop —
lines 222-223 of the controller) never touches `status`; invoked while
the status is already `ready` it leaves the status `ready`, a safe no-op
since no recognition round is active. -/
theorem c8_stop_idempotent (s : CState) (h : s.status = .ready) :
    ((stopAction s).1).status = .ready := by
  simpa [stopAction] using h

/-- Witness for C8 at a concrete ready state. -/
theorem c8_stop_idempotent_witness :
    ((stopAction ⟨.ready, false, false, none⟩).1).status = .ready :=
  c8_stop_idempotent ⟨.ready, false, false, none⟩ rfl

end VocalChess
